import Mathlib

/-!
Verification of the directory-tree utility in `src/ind.py`.

The program scans a directory, builds an in-memory `TreeNode` tree
(children inserted with `bisect.insort`, ordered by `__lt__` which
compares child counts), keeps aggregate counters `dir_count` and
`file_count` with a global 200-entry cap (`full` flag), and renders the
result either as indented text with box-drawing connectors or as XML.

The filesystem is modelled as an inductive `Entry` tree.  Directory
listing can fail: a `dirDenied` entry models a directory whose
`iterdir()` raises `PermissionError` (recovered), a `dirError` entry one
whose listing raises any other `OSError` (propagated).  An entry is a
file or a directory, mirroring the spec's data model; `is_dir`/`is_file`
mirror `Path.is_dir`/`Path.is_file`.
-/

namespace Ind

/-- A filesystem entry: a file, a readable directory with its listing in
filesystem enumeration order, a directory whose listing raises
`PermissionError`, or a directory whose listing raises some other
`OSError`. -/
inductive Entry : Type where
  | file (name : String)
  | dir (name : String) (entries : List Entry)
  | dirDenied (name : String)
  | dirError (name : String)

mutual
/-- Size measure on `Entry`, used for termination of the traversal. -/
def Entry.esize : Entry → Nat
  | .file _ => 1
  | .dir _ es => 1 + esizeList es
  | .dirDenied _ => 1
  | .dirError _ => 1

/-- Total size of a list of entries. -/
def esizeList : List Entry → Nat
  | [] => 0
  | e :: es => Entry.esize e + esizeList es
end

/-- Model of `Path.name`: the bare filename of the entry. -/
def Entry.name : Entry → String
  | .file n => n
  | .dir n _ => n
  | .dirDenied n => n
  | .dirError n => n

/-- Model of `Path.is_dir()`: a directory is a directory whether or not its
listing is readable. -/
def Entry.is_dir : Entry → Bool
  | .file _ => false
  | _ => true

/-- Model of `Path.is_file()`. -/
def Entry.is_file (e : Entry) : Bool := !e.is_dir

/-- Python's `str.startswith`: prefix test on the character sequence. -/
def strStartsWith (s p : String) : Bool := p.data.isPrefixOf s.data

/-- The `state` of a `TreeNode`: the path of the entry, kept as the list
of path components relative to the scan root (`[]` for the root itself,
so `relative_to(directory)` is the join of `rel`), together with the
entry the path resolves to (`name`, `is_dir`, `is_file` and `iterdir`
queries on the path read this). -/
structure NodeState where
  rel : List String
  entry : Entry

/-- The `TreeNode` dataclass: one node of the in-memory tree, a `state` path and the
ordered list of children. -/
inductive TreeNode : Type where
  | mk (state : NodeState) (children : List TreeNode)

/-- Field accessor for `state`. -/
def TreeNode.state : TreeNode → NodeState
  | .mk s _ => s

/-- Field accessor for `children`. -/
def TreeNode.children : TreeNode → List TreeNode
  | .mk _ c => c

/-- Model of `TreeNode.__len__`: the number of children. -/
def TreeNode.len (t : TreeNode) : Nat := t.children.length

/-- Model of `TreeNode.__lt__`: the comparison `len(self) < len(other)`. -/
def TreeNode.lt (x y : TreeNode) : Bool := x.len < y.len

/-- Model of `bisect.insort(children, x)` with `TreeNode.__lt__`: insert `x`
before the first element `y` with `x < y`, i.e. after every element
whose key equals the key of `x` (`bisect_right` behaviour). -/
def insort (x : TreeNode) : List TreeNode → List TreeNode
  | [] => [x]
  | y :: ys => if TreeNode.lt x y then x :: y :: ys else y :: insort x ys

/-- Model of `TreeNode.add_child`: the call `bisect.insort(self.children, child)`. -/
def TreeNode.add_child (t : TreeNode) (c : TreeNode) : TreeNode :=
  .mk t.state (insort c t.children)

/-- The parsed command-line namespace consumed by `Tree`:
`-a` include hidden, `-d` directories only, `-f` relative paths,
`-i` suppress guides (never read by `Tree`), `-m` alias `--max_depth`. -/
structure Args where
  a : Bool
  d : Bool
  f : Bool
  i : Bool
  max_depth : Option Int

/-- Model of `Tree.__should_include`. -/
def should_include (args : Args) (child : Entry) : Bool :=
  if !args.a && (strStartsWith child.name "." || strStartsWith child.name "__") then
    false
  else if args.d && child.is_file then
    false
  else
    true

/-- The mutable counter fields of `Tree`: `dir_count`, `file_count`,
`full`. -/
structure Counts where
  dir_count : Nat
  file_count : Nat
  full : Bool

/-- Model of `Tree.__increment_counts`: bump the counter for the entry's kind and
latch `full` once the running total reaches 200. -/
def increment_counts (c : Counts) (child : Entry) : Counts :=
  let c1 := if child.is_dir then { c with dir_count := c.dir_count + 1 }
            else { c with file_count := c.file_count + 1 }
  if c1.dir_count + c1.file_count ≥ 200 then { c1 with full := true } else c1

/-- An `OSError` escaping the build: `NotADirectoryError` from
`iterdir()` on a file, or any non-permission `OSError` from a directory
listing. -/
inductive OsError : Type where
  | notADirectory
  | listingError

/-- The `for child in node.state.iterdir()` loop of `Tree.expand`,
threading the parent's children list (grown by `add_child`, i.e.
`insort`) and the counters.  Each included entry is counted first; if
the cap has been hit the loop breaks before creating a node, otherwise a
node with the child's path and no children is inserted. -/
def expand_loop (args : Args) (rel : List String) :
    List Entry → List TreeNode → Counts → List TreeNode × Counts
  | [], acc, c => (acc, c)
  | e :: rest, acc, c =>
    if !should_include args e then expand_loop args rel rest acc c
    else
      let c1 := increment_counts c e
      if c1.full then (acc, c1)
      else expand_loop args rel rest (insort (.mk ⟨rel ++ [e.name], e⟩ []) acc) c1

/-- Model of `Tree.expand` on a node with path `rel`, entry `e` and current
children list `children`: list the entry and run the loop.
`PermissionError` is caught (`dirDenied` contributes nothing), every
other failure of `iterdir()` propagates. -/
def expand (args : Args) (rel : List String) (e : Entry)
    (children : List TreeNode) (c : Counts) :
    Except OsError (List TreeNode × Counts) :=
  match e with
  | .file _ => .error .notADirectory
  | .dirDenied _ => .ok (children, c)
  | .dirError _ => .error .listingError
  | .dir _ es => .ok (expand_loop args rel es children c)

/-- Total entry size carried by a list of nodes, used for termination of
`generate_tree`. -/
def nodesMeasure (ts : List TreeNode) : Nat :=
  (ts.map (fun t => t.state.entry.esize)).sum

theorem esize_pos (e : Entry) : 0 < e.esize := by
  cases e <;> simp [Entry.esize]

theorem nodesMeasure_insort (x : TreeNode) (l : List TreeNode) :
    nodesMeasure (insort x l) = x.state.entry.esize + nodesMeasure l := by
  induction l with
  | nil => simp [insort, nodesMeasure]
  | cons y ys ih =>
    simp only [insort]
    split
    · simp [nodesMeasure]
    · simp only [nodesMeasure, List.map_cons, List.sum_cons] at *
      omega

theorem expand_loop_measure (args : Args) (rel : List String) (es : List Entry)
    (acc : List TreeNode) (c : Counts) :
    nodesMeasure (expand_loop args rel es acc c).1 ≤
      nodesMeasure acc + esizeList es := by
  induction es generalizing acc c with
  | nil => simp [expand_loop, esizeList]
  | cons e rest ih =>
    simp only [expand_loop, esizeList]
    split
    · have := ih acc c
      have := esize_pos e
      omega
    · split
      · have h0 : (acc, increment_counts c e).1 = acc := rfl
        rw [h0]
        have := esize_pos e
        omega
      · have h2 := ih (insort (.mk ⟨rel ++ [e.name], e⟩ []) acc) (increment_counts c e)
        rw [nodesMeasure_insort] at h2
        simp only [TreeNode.state, NodeState.mk.injEq] at h2
        omega

theorem expand_measure (args : Args) (rel : List String) (e : Entry)
    (c : Counts) (cs : List TreeNode) (c1 : Counts)
    (h : expand args rel e [] c = .ok (cs, c1)) :
    2 * nodesMeasure cs + 1 < 2 * e.esize := by
  cases e with
  | file n => simp [expand] at h
  | dirDenied n =>
    simp only [expand, Except.ok.injEq, Prod.mk.injEq] at h
    rw [← h.1]
    simp [nodesMeasure, Entry.esize]
  | dirError n => simp [expand] at h
  | dir n es =>
    simp only [expand, Except.ok.injEq] at h
    have := expand_loop_measure args rel es [] c
    have hcs : cs = (expand_loop args rel es [] c).1 := by
      rw [h]
    rw [hcs]
    simp only [nodesMeasure, List.map_nil, List.sum_nil] at *
    simp only [Entry.esize]
    omega

mutual
/-- Model of `Tree.generate_tree` invoked on a freshly created node (path `rel`,
entry `e`, empty children — the only way the source ever invokes it:
the root right after construction, and every child right after
`expand` created it).  Returns without expanding when `full` is set or
`level` equals `max_depth`; otherwise expands the node and recurses into
each directory child, in the order of the children list. -/
def generate_tree (args : Args) (level : Nat) (rel : List String) (e : Entry)
    (c : Counts) : Except OsError (TreeNode × Counts) :=
  if c.full || (args.max_depth == some (level : Int)) then
    .ok (.mk ⟨rel, e⟩ [], c)
  else
    match hexp : expand args rel e [] c with
    | .error err => .error err
    | .ok (cs, c1) =>
      match generate_children args (level + 1) cs c1 with
      | .error err => .error err
      | .ok (cs', c2) => .ok (.mk ⟨rel, e⟩ cs', c2)
termination_by 2 * e.esize
decreasing_by
  · exact expand_measure args rel e c cs c1 hexp

/-- The `for child in node.children: if child.state.is_dir():
generate_tree(child, level + 1)` loop: each directory child is replaced
by its recursively generated subtree, non-directory children are kept
as they are. -/
def generate_children (args : Args) (level : Nat) :
    List TreeNode → Counts → Except OsError (List TreeNode × Counts)
  | [], c => .ok ([], c)
  | t :: ts, c =>
    if t.state.entry.is_dir then
      match generate_tree args level t.state.rel t.state.entry c with
      | .error err => .error err
      | .ok (t', c1) =>
        match generate_children args level ts c1 with
        | .error err => .error err
        | .ok (ts', c2) => .ok (t' :: ts', c2)
    else
      match generate_children args level ts c with
      | .error err => .error err
      | .ok (ts', c1) => .ok (t :: ts', c1)
termination_by ts => 2 * nodesMeasure ts + 1
decreasing_by
  · have := esize_pos t.state.entry
    simp only [nodesMeasure, List.map_cons, List.sum_cons]
    omega
  · have := esize_pos t.state.entry
    simp only [nodesMeasure, List.map_cons, List.sum_cons]
    omega
  · have := esize_pos t.state.entry
    simp only [nodesMeasure, List.map_cons, List.sum_cons]
    omega
end

/-- The observable result of one build: the `Tree` object after
`__post_init__` (its `root`, `dir_count`, `file_count` and `full`
fields). -/
structure Tree where
  root : TreeNode
  dir_count : Nat
  file_count : Nat
  full : Bool

/-- The counter fields right after `dataclass` initialisation. -/
def initCounts : Counts := ⟨0, 0, false⟩

/-- Model of `Tree.__post_init__`: create the root node for the scan directory
and run `generate_tree(root, 0)`. -/
def Tree.build (args : Args) (directory : Entry) : Except OsError Tree :=
  match generate_tree args 0 [] directory initCounts with
  | .error err => .error err
  | .ok (root, c) => .ok ⟨root, c.dir_count, c.file_count, c.full⟩

/-! ## Renderers -/

/-- The string `colorama.Fore.GREEN`. -/
def foreGreen : String := "\x1b[32m"

/-- The string `colorama.Fore.YELLOW`. -/
def foreYellow : String := "\x1b[33m"

/-- The string `colorama.Fore.BLUE`. -/
def foreBlue : String := "\x1b[34m"

/-- The string `colorama.Fore.RED`. -/
def foreRed : String := "\x1b[31m"

/-- The string `colorama.Style.RESET_ALL`. -/
def styleReset : String := "\x1b[0m"

/-- The label printed for a child node: the bare name, or with `-f` the
path relative to the scan directory, whose string form joins the
components with the platform path separator `sep`. -/
def nodeLabel (args : Args) (sep : String) (t : TreeNode) : String :=
  if !args.f then t.state.entry.name else String.intercalate sep t.state.rel

/-- Model of `Tree.__format_tree`, as the loop over a children list under prefix
`branch`: the head child of a non-empty suffix is last among its
siblings exactly when the remaining suffix is empty (`i == len - 1` in
the source). -/
def format_tree (args : Args) (sep : String) :
    List TreeNode → String → String
  | [], _ => ""
  | .mk s cs :: ts, branch =>
    let item := branch ++ (if ts.isEmpty then "└── " else "├── ")
    let name := nodeLabel args sep (.mk s cs)
    let color := if s.entry.is_file then foreGreen else foreYellow
    item ++ color ++ name ++ styleReset ++ "\n" ++
      format_tree args sep cs (branch ++ (if ts.isEmpty then "    " else "│   ")) ++
      format_tree args sep ts branch

/-- Model of `Tree.__str__`: coloured header with the root's own name, the
formatted body, and the footer with the counters, plus the truncation
notice when `full` is set. -/
def treeStr (args : Args) (sep : String) (t : Tree) : String :=
  let header := foreBlue ++ t.root.state.entry.name ++ styleReset ++ "\n"
  let body := format_tree args sep t.root.children ""
  let footer0 := "\n" ++ foreYellow ++ "Directories: " ++ toString t.dir_count ++ ", " ++
    foreGreen ++ "Files: " ++ toString t.file_count ++ styleReset
  let footer := if t.full then
    footer0 ++ foreRed ++ "\n" ++ "Output limited to 200 elements." ++ styleReset
  else footer0
  header ++ body ++ footer

/-- An XML element as assembled by `xml.etree.ElementTree`: a tag, an
attribute list, and child elements in order. -/
inductive XmlElem : Type where
  | mk (tag : String) (attrs : List (String × String)) (children : List XmlElem)

/-- Tag of an element. -/
def XmlElem.tag : XmlElem → String
  | .mk tg _ _ => tg

/-- Attributes of an element. -/
def XmlElem.attrs : XmlElem → List (String × String)
  | .mk _ a _ => a

/-- Child elements of an element. -/
def XmlElem.children : XmlElem → List XmlElem
  | .mk _ _ c => c

mutual
/-- Model of `build_xml_element` inside `Tree.save_xml`: element tag `"node"`,
single attribute `name` (with a trailing `/` appended for directories),
children appended in the order of the in-memory children list. -/
def build_xml_element : TreeNode → XmlElem
  | .mk s cs =>
    .mk "node" [("name", if s.entry.is_dir then s.entry.name ++ "/" else s.entry.name)]
      (build_xml_list cs)

/-- The `for child in node.children` append loop of `build_xml_element`. -/
def build_xml_list : List TreeNode → List XmlElem
  | [] => []
  | t :: ts => build_xml_element t :: build_xml_list ts
end

/-! ## Observation helpers -/

mutual
/-- Number of strict descendants of a node (the nodes of its subtree
other than the node itself). -/
def TreeNode.countNodes : TreeNode → Nat
  | .mk _ cs => countNodesList cs

/-- Number of nodes in a forest, every root included. -/
def countNodesList : List TreeNode → Nat
  | [] => 0
  | t :: ts => 1 + t.countNodes + countNodesList ts
end

mutual
/-- Height of a node: the largest recursion depth of a node of its
subtree relative to it (0 for a leaf). -/
def TreeNode.height : TreeNode → Nat
  | .mk _ cs => heightList cs

/-- One more than the largest height in a forest (0 if empty). -/
def heightList : List TreeNode → Nat
  | [] => 0
  | t :: ts => max (t.height + 1) (heightList ts)
end

mutual
/-- All strict descendants of a node, in depth-first order. -/
def TreeNode.descendants : TreeNode → List TreeNode
  | .mk _ cs => descList cs

/-- All nodes of a forest, every root included. -/
def descList : List TreeNode → List TreeNode
  | [] => []
  | t :: ts => t :: t.descendants ++ descList ts
end

mutual
/-- Every node of this subtree, the root included, is a directory. -/
def TreeNode.allDirs : TreeNode → Bool
  | .mk s cs => s.entry.is_dir && allDirsList cs

/-- Every node of the forest is a directory. -/
def allDirsList : List TreeNode → Bool
  | [] => true
  | t :: ts => t.allDirs && allDirsList ts
end

mutual
/-- Number of elements of an XML document (the element itself plus all
nested elements). -/
def XmlElem.countElems : XmlElem → Nat
  | .mk _ _ cs => 1 + countElemsList cs

/-- Total number of elements of a forest of XML elements. -/
def countElemsList : List XmlElem → Nat
  | [] => 0
  | x :: xs => x.countElems + countElemsList xs
end

/-! ## Spec-side renderer (written from the words of the specification,
for comparison with `format_tree` and `treeStr`) -/

/-- A highlight role: root, file or directory. -/
inductive Role : Type where
  | root
  | file
  | directory

/-- The cosmetic highlight collaborator: wrap the text in the colour of
the role (and a reset). -/
def highlight (role : Role) (text : String) : String :=
  match role with
  | .root => foreBlue ++ text ++ styleReset
  | .file => foreGreen ++ text ++ styleReset
  | .directory => foreYellow ++ text ++ styleReset

/-- Connector before a child: `"└── "` if it is the last child among
its siblings, else `"├── "`. -/
def specConnector (isLast : Bool) : String :=
  if isLast then "└── " else "├── "

/-- Branch-prefix extension for the descendants of a child: four spaces
if the child was last among its siblings, else a vertical-bar guide plus
three spaces. -/
def specExtension (isLast : Bool) : String :=
  if isLast then "    " else "│   "

mutual
/-- The lines a single child node contributes: its own connector line,
then the lines of its children under the extended prefix. -/
def specNodeLines (args : Args) (sep : String) :
    TreeNode → String → Bool → List String
  | .mk s cs, branch, isLast =>
    (branch ++ specConnector isLast ++
        highlight (if Entry.is_file s.entry then .file else .directory)
          (nodeLabel args sep (.mk s cs))) ::
      specForestLines args sep cs (branch ++ specExtension isLast)

/-- The lines of a forest of siblings under a common branch prefix, in
stored order; the last sibling is the one with an empty remainder. -/
def specForestLines (args : Args) (sep : String) :
    List TreeNode → String → List String
  | [], _ => []
  | t :: ts, branch =>
    specNodeLines args sep t branch ts.isEmpty ++ specForestLines args sep ts branch
end

/-- Join a list of lines, terminating each with a newline. -/
def joinLines (ls : List String) : String :=
  (ls.map (fun l => l ++ "\n")).foldr (fun a b => a ++ b) ""

/-- The literal truncation notice. -/
def truncationNotice : String := "Output limited to 200 elements."

/-- The renderer as described by the specification: header line with the
root entry's own name (root role), the body lines, a blank line and the
footer with both counters, and the truncation notice line exactly when
`full` is set.  Highlighting is the cosmetic colour wrapper. -/
def renderSpec (args : Args) (sep : String) (t : Tree) : String :=
  highlight .root t.root.state.entry.name ++ "\n" ++
    joinLines (specForestLines args sep t.root.children "") ++
    "\n" ++ foreYellow ++ "Directories: " ++ toString t.dir_count ++ ", " ++
    foreGreen ++ "Files: " ++ toString t.file_count ++ styleReset ++
    (if t.full then foreRed ++ "\n" ++ truncationNotice ++ styleReset else "")

/-! ## Spec-side XML shape -/

/-- The `name` attribute value the specification prescribes for a node:
the bare filename, with a trailing `/` appended iff the node is a
directory. -/
def specXmlName (s : NodeState) : String :=
  if s.entry.is_dir then s.entry.name ++ "/" else s.entry.name

mutual
/-- The XML element corresponds to the in-memory node: tag `"node"`, the
single `name` attribute, and children matching the in-memory children
in the same order. -/
def xmlMatches : TreeNode → XmlElem → Bool
  | .mk s cs, .mk tg attrs xs =>
    (tg == "node") && (attrs == [("name", specXmlName s)]) && xmlMatchesList cs xs

/-- Forests correspond element-wise, in order. -/
def xmlMatchesList : List TreeNode → List XmlElem → Bool
  | [], [] => true
  | t :: ts, x :: xs => xmlMatches t x && xmlMatchesList ts xs
  | [], _ :: _ => false
  | _ :: _, [] => false
end

mutual
/-- Every element of the document has tag `"node"` and exactly one
attribute, whose key is `name` (in particular no counter or truncation
summary appears anywhere). -/
def XmlElem.allNodeShaped : XmlElem → Bool
  | .mk tg attrs xs =>
    (tg == "node") && (attrs.map Prod.fst == ["name"]) && allNodeShapedList xs

/-- The check `XmlElem.allNodeShaped` over a forest. -/
def allNodeShapedList : List XmlElem → Bool
  | [] => true
  | x :: xs => x.allNodeShaped && allNodeShapedList xs
end

/-! ## Append-based reference builder (spec side of the refinement
claim: the sorted insertion is a stable no-op, so inserting with
`insort` is equivalent to appending each included entry) -/

/-- Variant of `expand_loop` with plain append instead of sorted insertion. -/
def append_loop (args : Args) (rel : List String) :
    List Entry → List TreeNode → Counts → List TreeNode × Counts
  | [], acc, c => (acc, c)
  | e :: rest, acc, c =>
    if !should_include args e then append_loop args rel rest acc c
    else
      let c1 := increment_counts c e
      if c1.full then (acc, c1)
      else append_loop args rel rest (acc ++ [.mk ⟨rel ++ [e.name], e⟩ []]) c1

/-- Variant of `expand` with the append loop. -/
def append_expand (args : Args) (rel : List String) (e : Entry)
    (children : List TreeNode) (c : Counts) :
    Except OsError (List TreeNode × Counts) :=
  match e with
  | .file _ => .error .notADirectory
  | .dirDenied _ => .ok (children, c)
  | .dirError _ => .error .listingError
  | .dir _ es => .ok (append_loop args rel es children c)

theorem nodesMeasure_append (l1 l2 : List TreeNode) :
    nodesMeasure (l1 ++ l2) = nodesMeasure l1 + nodesMeasure l2 := by
  simp [nodesMeasure]

theorem append_loop_measure (args : Args) (rel : List String) (es : List Entry)
    (acc : List TreeNode) (c : Counts) :
    nodesMeasure (append_loop args rel es acc c).1 ≤
      nodesMeasure acc + esizeList es := by
  induction es generalizing acc c with
  | nil => simp [append_loop, esizeList]
  | cons e rest ih =>
    simp only [append_loop, esizeList]
    split
    · have := ih acc c
      have := esize_pos e
      omega
    · split
      · have h0 : (acc, increment_counts c e).1 = acc := rfl
        rw [h0]
        have := esize_pos e
        omega
      · have h2 := ih (acc ++ [.mk ⟨rel ++ [e.name], e⟩ []]) (increment_counts c e)
        rw [nodesMeasure_append] at h2
        have h3 : nodesMeasure [TreeNode.mk ⟨rel ++ [e.name], e⟩ []] = e.esize := by
          simp [nodesMeasure, TreeNode.state]
        rw [h3] at h2
        omega

theorem append_expand_measure (args : Args) (rel : List String) (e : Entry)
    (c : Counts) (cs : List TreeNode) (c1 : Counts)
    (h : append_expand args rel e [] c = .ok (cs, c1)) :
    2 * nodesMeasure cs + 1 < 2 * e.esize := by
  cases e with
  | file n => simp [append_expand] at h
  | dirDenied n =>
    simp only [append_expand, Except.ok.injEq, Prod.mk.injEq] at h
    rw [← h.1]
    simp [nodesMeasure, Entry.esize]
  | dirError n => simp [append_expand] at h
  | dir n es =>
    simp only [append_expand, Except.ok.injEq] at h
    have := append_loop_measure args rel es [] c
    have hcs : cs = (append_loop args rel es [] c).1 := by
      rw [h]
    rw [hcs]
    simp only [nodesMeasure, List.map_nil, List.sum_nil] at *
    simp only [Entry.esize]
    omega

mutual
/-- Variant of `generate_tree` over the append-based expansion. -/
def append_generate_tree (args : Args) (level : Nat) (rel : List String)
    (e : Entry) (c : Counts) : Except OsError (TreeNode × Counts) :=
  if c.full || (args.max_depth == some (level : Int)) then
    .ok (.mk ⟨rel, e⟩ [], c)
  else
    match hexp : append_expand args rel e [] c with
    | .error err => .error err
    | .ok (cs, c1) =>
      match append_generate_children args (level + 1) cs c1 with
      | .error err => .error err
      | .ok (cs', c2) => .ok (.mk ⟨rel, e⟩ cs', c2)
termination_by 2 * e.esize
decreasing_by
  · exact append_expand_measure args rel e c cs c1 hexp

/-- Variant of `generate_children` over the append-based expansion. -/
def append_generate_children (args : Args) (level : Nat) :
    List TreeNode → Counts → Except OsError (List TreeNode × Counts)
  | [], c => .ok ([], c)
  | t :: ts, c =>
    if t.state.entry.is_dir then
      match append_generate_tree args level t.state.rel t.state.entry c with
      | .error err => .error err
      | .ok (t', c1) =>
        match append_generate_children args level ts c1 with
        | .error err => .error err
        | .ok (ts', c2) => .ok (t' :: ts', c2)
    else
      match append_generate_children args level ts c with
      | .error err => .error err
      | .ok (ts', c1) => .ok (t :: ts', c1)
termination_by ts => 2 * nodesMeasure ts + 1
decreasing_by
  · have := esize_pos t.state.entry
    simp only [nodesMeasure, List.map_cons, List.sum_cons]
    omega
  · have := esize_pos t.state.entry
    simp only [nodesMeasure, List.map_cons, List.sum_cons]
    omega
  · have := esize_pos t.state.entry
    simp only [nodesMeasure, List.map_cons, List.sum_cons]
    omega
end

/-- The whole build with plain appending instead of sorted insertion. -/
def Tree.appendBuild (args : Args) (directory : Entry) : Except OsError Tree :=
  match append_generate_tree args 0 [] directory initCounts with
  | .error err => .error err
  | .ok (root, c) => .ok ⟨root, c.dir_count, c.file_count, c.full⟩

/-! ## Unfolding lemmas for the traversal -/

theorem generate_tree_of_guard (args : Args) (level : Nat) (rel : List String)
    (e : Entry) (c : Counts)
    (h : (c.full || (args.max_depth == some (level : Int))) = true) :
    generate_tree args level rel e c = .ok (.mk ⟨rel, e⟩ [], c) := by
  rw [generate_tree]
  simp [h]

theorem generate_tree_of_full (args : Args) (level : Nat) (rel : List String)
    (e : Entry) (c : Counts) (h : c.full = true) :
    generate_tree args level rel e c = .ok (.mk ⟨rel, e⟩ [], c) := by
  apply generate_tree_of_guard
  simp [h]

theorem generate_tree_of_ok (args : Args) (level : Nat) (rel : List String)
    (e : Entry) (c : Counts) (cs : List TreeNode) (c1 : Counts)
    (cs' : List TreeNode) (c2 : Counts)
    (hg : (c.full || (args.max_depth == some (level : Int))) = false)
    (he : expand args rel e [] c = .ok (cs, c1))
    (hc : generate_children args (level + 1) cs c1 = .ok (cs', c2)) :
    generate_tree args level rel e c = .ok (.mk ⟨rel, e⟩ cs', c2) := by
  rw [generate_tree, hg]
  simp only [Bool.false_eq_true, if_false]
  split
  · rename_i err heq
    rw [he] at heq
    cases heq
  · rename_i cs0 c10 heq
    rw [he] at heq
    injection heq with h1
    injection h1 with h2 h3
    subst h2
    subst h3
    rw [hc]

theorem generate_tree_of_expand_err (args : Args) (level : Nat)
    (rel : List String) (e : Entry) (c : Counts) (err : OsError)
    (hg : (c.full || (args.max_depth == some (level : Int))) = false)
    (he : expand args rel e [] c = .error err) :
    generate_tree args level rel e c = .error err := by
  rw [generate_tree, hg]
  simp only [Bool.false_eq_true, if_false]
  split
  · rename_i err0 heq
    rw [he] at heq
    injection heq with h1
    rw [h1]
  · rename_i cs0 c10 heq
    rw [he] at heq
    cases heq

theorem generate_tree_of_children_err (args : Args) (level : Nat)
    (rel : List String) (e : Entry) (c : Counts) (cs : List TreeNode)
    (c1 : Counts) (err : OsError)
    (hg : (c.full || (args.max_depth == some (level : Int))) = false)
    (he : expand args rel e [] c = .ok (cs, c1))
    (hc : generate_children args (level + 1) cs c1 = .error err) :
    generate_tree args level rel e c = .error err := by
  rw [generate_tree, hg]
  simp only [Bool.false_eq_true, if_false]
  split
  · rename_i err0 heq
    rw [he] at heq
    cases heq
  · rename_i cs0 c10 heq
    rw [he] at heq
    injection heq with h1
    injection h1 with h2 h3
    subst h2
    subst h3
    rw [hc]

theorem generate_children_nil (args : Args) (level : Nat) (c : Counts) :
    generate_children args level [] c = .ok ([], c) := by
  rw [generate_children]

theorem generate_children_cons_dir_ok (args : Args) (level : Nat)
    (t : TreeNode) (ts : List TreeNode) (c : Counts) (t' : TreeNode)
    (c1 : Counts) (ts' : List TreeNode) (c2 : Counts)
    (hd : t.state.entry.is_dir = true)
    (ht : generate_tree args level t.state.rel t.state.entry c = .ok (t', c1))
    (hts : generate_children args level ts c1 = .ok (ts', c2)) :
    generate_children args level (t :: ts) c = .ok (t' :: ts', c2) := by
  rw [generate_children]
  simp [hd, ht, hts]

theorem generate_children_cons_dir_err (args : Args) (level : Nat)
    (t : TreeNode) (ts : List TreeNode) (c : Counts) (err : OsError)
    (hd : t.state.entry.is_dir = true)
    (ht : generate_tree args level t.state.rel t.state.entry c = .error err) :
    generate_children args level (t :: ts) c = .error err := by
  rw [generate_children]
  simp [hd, ht]

theorem generate_children_cons_nondir_ok (args : Args) (level : Nat)
    (t : TreeNode) (ts : List TreeNode) (c : Counts) (ts' : List TreeNode)
    (c1 : Counts)
    (hd : t.state.entry.is_dir = false)
    (hts : generate_children args level ts c = .ok (ts', c1)) :
    generate_children args level (t :: ts) c = .ok (t :: ts', c1) := by
  rw [generate_children]
  simp [hd, hts]

theorem generate_children_cons_dir_children_err (args : Args) (level : Nat)
    (t : TreeNode) (ts : List TreeNode) (c : Counts) (t2 : TreeNode)
    (c1 : Counts) (err : OsError)
    (hd : t.state.entry.is_dir = true)
    (ht : generate_tree args level t.state.rel t.state.entry c = .ok (t2, c1))
    (hts : generate_children args level ts c1 = .error err) :
    generate_children args level (t :: ts) c = .error err := by
  rw [generate_children]
  simp [hd, ht, hts]

theorem generate_children_cons_nondir_err (args : Args) (level : Nat)
    (t : TreeNode) (ts : List TreeNode) (c : Counts) (err : OsError)
    (hd : t.state.entry.is_dir = false)
    (hts : generate_children args level ts c = .error err) :
    generate_children args level (t :: ts) c = .error err := by
  rw [generate_children]
  simp [hd, hts]

theorem append_generate_tree_of_guard (args : Args) (level : Nat)
    (rel : List String) (e : Entry) (c : Counts)
    (h : (c.full || (args.max_depth == some (level : Int))) = true) :
    append_generate_tree args level rel e c = .ok (.mk ⟨rel, e⟩ [], c) := by
  rw [append_generate_tree]
  simp [h]

theorem append_generate_tree_of_ok (args : Args) (level : Nat)
    (rel : List String) (e : Entry) (c : Counts) (cs : List TreeNode)
    (c1 : Counts) (cs' : List TreeNode) (c2 : Counts)
    (hg : (c.full || (args.max_depth == some (level : Int))) = false)
    (he : append_expand args rel e [] c = .ok (cs, c1))
    (hc : append_generate_children args (level + 1) cs c1 = .ok (cs', c2)) :
    append_generate_tree args level rel e c = .ok (.mk ⟨rel, e⟩ cs', c2) := by
  rw [append_generate_tree, hg]
  simp only [Bool.false_eq_true, if_false]
  split
  · rename_i err heq
    rw [he] at heq
    cases heq
  · rename_i cs0 c10 heq
    rw [he] at heq
    injection heq with h1
    injection h1 with h2 h3
    subst h2
    subst h3
    rw [hc]

theorem append_generate_tree_of_expand_err (args : Args) (level : Nat)
    (rel : List String) (e : Entry) (c : Counts) (err : OsError)
    (hg : (c.full || (args.max_depth == some (level : Int))) = false)
    (he : append_expand args rel e [] c = .error err) :
    append_generate_tree args level rel e c = .error err := by
  rw [append_generate_tree, hg]
  simp only [Bool.false_eq_true, if_false]
  split
  · rename_i err0 heq
    rw [he] at heq
    injection heq with h1
    rw [h1]
  · rename_i cs0 c10 heq
    rw [he] at heq
    cases heq

theorem append_generate_tree_of_children_err (args : Args) (level : Nat)
    (rel : List String) (e : Entry) (c : Counts) (cs : List TreeNode)
    (c1 : Counts) (err : OsError)
    (hg : (c.full || (args.max_depth == some (level : Int))) = false)
    (he : append_expand args rel e [] c = .ok (cs, c1))
    (hc : append_generate_children args (level + 1) cs c1 = .error err) :
    append_generate_tree args level rel e c = .error err := by
  rw [append_generate_tree, hg]
  simp only [Bool.false_eq_true, if_false]
  split
  · rename_i err0 heq
    rw [he] at heq
    cases heq
  · rename_i cs0 c10 heq
    rw [he] at heq
    injection heq with h1
    injection h1 with h2 h3
    subst h2
    subst h3
    rw [hc]

theorem append_generate_children_nil (args : Args) (level : Nat) (c : Counts) :
    append_generate_children args level [] c = .ok ([], c) := by
  rw [append_generate_children]

theorem append_generate_children_cons_dir_ok (args : Args) (level : Nat)
    (t : TreeNode) (ts : List TreeNode) (c : Counts) (t' : TreeNode)
    (c1 : Counts) (ts' : List TreeNode) (c2 : Counts)
    (hd : t.state.entry.is_dir = true)
    (ht : append_generate_tree args level t.state.rel t.state.entry c = .ok (t', c1))
    (hts : append_generate_children args level ts c1 = .ok (ts', c2)) :
    append_generate_children args level (t :: ts) c = .ok (t' :: ts', c2) := by
  rw [append_generate_children]
  simp [hd, ht, hts]

theorem append_generate_children_cons_dir_err (args : Args) (level : Nat)
    (t : TreeNode) (ts : List TreeNode) (c : Counts) (err : OsError)
    (hd : t.state.entry.is_dir = true)
    (ht : append_generate_tree args level t.state.rel t.state.entry c = .error err) :
    append_generate_children args level (t :: ts) c = .error err := by
  rw [append_generate_children]
  simp [hd, ht]

theorem append_generate_children_cons_nondir_ok (args : Args) (level : Nat)
    (t : TreeNode) (ts : List TreeNode) (c : Counts) (ts' : List TreeNode)
    (c1 : Counts)
    (hd : t.state.entry.is_dir = false)
    (hts : append_generate_children args level ts c = .ok (ts', c1)) :
    append_generate_children args level (t :: ts) c = .ok (t :: ts', c1) := by
  rw [append_generate_children]
  simp [hd, hts]

theorem append_generate_children_cons_dir_children_err (args : Args)
    (level : Nat) (t : TreeNode) (ts : List TreeNode) (c : Counts)
    (t2 : TreeNode) (c1 : Counts) (err : OsError)
    (hd : t.state.entry.is_dir = true)
    (ht : append_generate_tree args level t.state.rel t.state.entry c = .ok (t2, c1))
    (hts : append_generate_children args level ts c1 = .error err) :
    append_generate_children args level (t :: ts) c = .error err := by
  rw [append_generate_children]
  simp [hd, ht, hts]

theorem append_generate_children_cons_nondir_err (args : Args) (level : Nat)
    (t : TreeNode) (ts : List TreeNode) (c : Counts) (err : OsError)
    (hd : t.state.entry.is_dir = false)
    (hts : append_generate_children args level ts c = .error err) :
    append_generate_children args level (t :: ts) c = .error err := by
  rw [append_generate_children]
  simp [hd, hts]

/-! ## Lemmas about `insort` -/

theorem mem_insort (z x : TreeNode) (l : List TreeNode) :
    z ∈ insort x l ↔ z = x ∨ z ∈ l := by
  induction l with
  | nil => simp [insort]
  | cons y ys ih =>
    simp only [insort]
    split
    · simp [or_comm, or_assoc, List.mem_cons]
      try tauto
    · simp [List.mem_cons, ih]
      try tauto

theorem insort_length (x : TreeNode) (l : List TreeNode) :
    (insort x l).length = l.length + 1 := by
  induction l with
  | nil => simp [insort]
  | cons y ys ih =>
    simp only [insort]
    split
    · simp
    · simp [ih]

theorem countNodesList_insort (x : TreeNode) (l : List TreeNode) :
    countNodesList (insort x l) = 1 + x.countNodes + countNodesList l := by
  induction l with
  | nil => simp [insort, countNodesList]
  | cons y ys ih =>
    simp only [insort]
    split
    · simp only [countNodesList]
      try omega
    · simp only [countNodesList, ih]
      omega

theorem allDirsList_insort (x : TreeNode) (l : List TreeNode) :
    allDirsList (insort x l) = (x.allDirs && allDirsList l) := by
  induction l with
  | nil => simp [insort, allDirsList]
  | cons y ys ih =>
    simp only [insort]
    split
    · simp only [allDirsList]
      try cases x.allDirs <;> cases y.allDirs <;> cases allDirsList ys <;> simp
    · simp only [allDirsList, ih]
      try cases x.allDirs <;> cases y.allDirs <;> cases allDirsList ys <;> simp

theorem insort_of_leaves (x : TreeNode) (l : List TreeNode)
    (h : ∀ y ∈ l, y.children = []) : insort x l = l ++ [x] := by
  induction l with
  | nil => simp [insort]
  | cons y ys ih =>
    have hy : y.children = [] := h y (List.mem_cons_self y ys)
    have hlt : TreeNode.lt x y = false := by
      simp [TreeNode.lt, TreeNode.len, hy]
    simp only [insort, hlt, Bool.false_eq_true, if_false, List.cons_append,
      List.cons.injEq, true_and]
    exact ih (fun z hz => h z (List.mem_cons_of_mem y hz))

theorem insort_takeWhile_dropWhile (x : TreeNode) (l : List TreeNode) :
    insort x l =
      l.takeWhile (fun y => !(TreeNode.lt x y)) ++
        x :: l.dropWhile (fun y => !(TreeNode.lt x y)) := by
  induction l with
  | nil => simp [insort]
  | cons y ys ih =>
    simp only [insort]
    split
    · rename_i hlt
      simp [List.takeWhile, List.dropWhile, hlt]
    · rename_i hlt
      simp only [Bool.not_eq_true] at hlt
      simp [List.takeWhile, List.dropWhile, hlt, ih]

theorem insort_sorted (x : TreeNode) (l : List TreeNode)
    (h : List.Sorted (fun u v : TreeNode => u.len ≤ v.len) l) :
    List.Sorted (fun u v : TreeNode => u.len ≤ v.len) (insort x l) := by
  induction l with
  | nil => simp [insort]
  | cons y ys ih =>
    rw [List.sorted_cons] at h
    obtain ⟨hy, hys⟩ := h
    simp only [insort]
    split
    · rename_i hlt
      simp only [TreeNode.lt, decide_eq_true_eq] at hlt
      rw [List.sorted_cons]
      constructor
      · intro b hb
        rcases List.mem_cons.mp hb with hb | hb
        · subst hb
          omega
        · have := hy b hb
          omega
      · rw [List.sorted_cons]
        exact ⟨hy, hys⟩
    · rename_i hlt
      simp only [TreeNode.lt, decide_eq_true_eq, Nat.not_lt] at hlt
      rw [List.sorted_cons]
      constructor
      · intro b hb
        rcases (mem_insort b x ys).mp hb with hb | hb
        · subst hb
          omega
        · exact hy b hb
      · exact ih hys

/-! ## Counter lemmas -/

/-- Invariant on the counter state: the running total never exceeds 200,
and is strictly below 200 while `full` is not set. -/
def CountsInv (c : Counts) : Prop :=
  c.dir_count + c.file_count ≤ 200 ∧
    (c.full = false → c.dir_count + c.file_count < 200)

/-- One exactly when the transition from `c` to `c2` set the `full` flag. -/
def flipNat (c c2 : Counts) : Nat :=
  if c.full = false ∧ c2.full = true then 1 else 0

theorem increment_counts_total (c : Counts) (e : Entry) :
    (increment_counts c e).dir_count + (increment_counts c e).file_count =
      c.dir_count + c.file_count + 1 := by
  obtain ⟨cd, cf, cful⟩ := c
  simp only [increment_counts]
  split <;> split <;> dsimp only <;> omega

theorem increment_counts_full (c : Counts) (e : Entry) :
    (increment_counts c e).full =
      (c.full || decide (c.dir_count + c.file_count + 1 ≥ 200)) := by
  obtain ⟨cd, cf, cful⟩ := c
  simp only [increment_counts]
  split <;> split <;> rename_i h1 h2 <;> dsimp only at h2 ⊢ <;> simp at h2 ⊢ <;>
    first
      | (cases cful <;> simp <;> omega)
      | omega
      | rfl

theorem increment_counts_file_of_dir (c : Counts) (e : Entry)
    (h : e.is_dir = true) : (increment_counts c e).file_count = c.file_count := by
  obtain ⟨cd, cf, cful⟩ := c
  simp only [increment_counts]
  rw [if_pos h]
  split <;> rfl

theorem should_include_dir (args : Args) (e : Entry) (hd : args.d = true)
    (h : should_include args e = true) : e.is_dir = true := by
  by_contra hnd
  simp only [Bool.not_eq_true] at hnd
  have hf : e.is_file = true := by simp [Entry.is_file, hnd]
  simp only [should_include, hd, hf, Bool.true_and] at h
  split at h
  · cases h
  · simp at h

theorem countNodes_of_leaf (t : TreeNode) (h : t.children = []) :
    t.countNodes = 0 := by
  cases t with
  | mk s cs =>
    simp only [TreeNode.children] at h
    subst h
    rfl

theorem height_of_leaf (t : TreeNode) (h : t.children = []) :
    t.height = 0 := by
  cases t with
  | mk s cs =>
    simp only [TreeNode.children] at h
    subst h
    rfl

theorem heightList_le (ts : List TreeNode) (m : Nat)
    (h : ∀ t ∈ ts, t.height + 1 ≤ m) : heightList ts ≤ m := by
  induction ts with
  | nil => simp [heightList]
  | cons t ts ih =>
    simp only [heightList]
    have h1 := h t (List.mem_cons_self t ts)
    have h2 := ih (fun u hu => h u (List.mem_cons_of_mem t hu))
    omega

/-! ## Lemmas about `expand_loop` -/

theorem expand_loop_leaves (args : Args) (rel : List String) (es : List Entry)
    (acc : List TreeNode) (c : Counts) (h : ∀ y ∈ acc, y.children = []) :
    ∀ y ∈ (expand_loop args rel es acc c).1, y.children = [] := by
  induction es generalizing acc c with
  | nil => simpa [expand_loop] using h
  | cons e rest ih =>
    simp only [expand_loop]
    split
    · exact ih acc c h
    · split
      · simpa using h
      · apply ih
        intro y hy
        rcases (mem_insort y _ _).mp hy with hy | hy
        · subst hy
          rfl
        · exact h y hy

theorem expand_loop_inv (args : Args) (rel : List String) (es : List Entry)
    (acc : List TreeNode) (c : Counts) (hf : c.full = false) (h : CountsInv c) :
    CountsInv (expand_loop args rel es acc c).2 := by
  induction es generalizing acc c with
  | nil => simpa [expand_loop] using h
  | cons e rest ih =>
    simp only [expand_loop]
    split
    · exact ih acc c hf h
    · have htot := increment_counts_total c e
      have hful := increment_counts_full c e
      rw [hf] at hful
      simp only [Bool.false_or] at hful
      have hlt : c.dir_count + c.file_count < 200 := h.2 hf
      split
      · rename_i h1
        refine ⟨?_, ?_⟩
        · show (increment_counts c e).dir_count + (increment_counts c e).file_count ≤ 200
          omega
        · intro h2
          show (increment_counts c e).dir_count + (increment_counts c e).file_count < 200
          rw [h1] at h2
          cases h2
      · rename_i h1
        simp only [Bool.not_eq_true] at h1
        refine ih _ _ h1 ⟨?_, ?_⟩
        · omega
        · intro h2
          rw [hful] at h2
          simp only [decide_eq_false_iff_not, Nat.not_le] at h2
          omega

theorem expand_loop_counts (args : Args) (rel : List String) (es : List Entry)
    (acc : List TreeNode) (c : Counts) (hf : c.full = false)
    (acc2 : List TreeNode) (c2 : Counts)
    (hout : expand_loop args rel es acc c = (acc2, c2)) :
    c2.dir_count + c2.file_count + countNodesList acc =
      c.dir_count + c.file_count + countNodesList acc2 + flipNat c c2 := by
  induction es generalizing acc c with
  | nil =>
    simp only [expand_loop] at hout
    injection hout with h1 h2
    subst h1
    subst h2
    simp [flipNat, hf]
  | cons e rest ih =>
    simp only [expand_loop] at hout
    split at hout
    · exact ih acc c hf hout
    · have htot := increment_counts_total c e
      have hful := increment_counts_full c e
      rw [hf] at hful
      simp only [Bool.false_or] at hful
      split at hout
      · rename_i h1
        injection hout with h1a h2a
        subst h1a
        subst h2a
        have hfl : flipNat c (increment_counts c e) = 1 := by
          simp [flipNat, hf, h1]
        rw [hfl]
        omega
      · rename_i h1
        simp only [Bool.not_eq_true] at h1
        have := ih _ _ h1 hout
        rw [countNodesList_insort] at this
        have hleaf : (TreeNode.mk ⟨rel ++ [e.name], e⟩ []).countNodes = 0 := rfl
        rw [hleaf] at this
        have hflip : flipNat (increment_counts c e) c2 = flipNat c c2 := by
          simp [flipNat, h1, hf]
        rw [hflip] at this
        omega

theorem expand_loop_dirs (args : Args) (rel : List String) (es : List Entry)
    (acc : List TreeNode) (c : Counts) (hd : args.d = true) :
    (expand_loop args rel es acc c).2.file_count = c.file_count ∧
      ((∀ y ∈ acc, y.allDirs = true) →
        ∀ y ∈ (expand_loop args rel es acc c).1, y.allDirs = true) := by
  induction es generalizing acc c with
  | nil => simp [expand_loop]
  | cons e rest ih =>
    simp only [expand_loop]
    split
    · exact ih acc c
    · rename_i hinc
      simp only [Bool.not_eq_true', Bool.not_eq_false] at hinc
      have hdir : e.is_dir = true := should_include_dir args e hd hinc
      have hfc := increment_counts_file_of_dir c e hdir
      split
      · simpa [hfc] using fun h => h
      · have := ih (insort (.mk ⟨rel ++ [e.name], e⟩ []) acc) (increment_counts c e)
        constructor
        · rw [this.1, hfc]
        · intro h
          apply this.2
          intro y hy
          rcases (mem_insort y _ _).mp hy with hy | hy
          · subst hy
            simp [TreeNode.allDirs, allDirsList, hdir]
          · exact h y hy

theorem expand_loop_eq_append (args : Args) (rel : List String) (es : List Entry)
    (acc : List TreeNode) (c : Counts) (h : ∀ y ∈ acc, y.children = []) :
    expand_loop args rel es acc c = append_loop args rel es acc c := by
  induction es generalizing acc c with
  | nil => simp [expand_loop, append_loop]
  | cons e rest ih =>
    simp only [expand_loop, append_loop]
    split
    · exact ih acc c h
    · split
      · rfl
      · rw [insort_of_leaves _ _ h]
        apply ih
        intro y hy
        rcases List.mem_append.mp hy with hy | hy
        · exact h y hy
        · rcases List.mem_singleton.mp hy with rfl
          rfl

/-! ## Lemmas about `expand` from a fresh node -/

theorem expand_ok_leaves (args : Args) (rel : List String) (e : Entry)
    (c : Counts) (cs : List TreeNode) (c1 : Counts)
    (h : expand args rel e [] c = .ok (cs, c1)) :
    ∀ y ∈ cs, y.children = [] := by
  cases e with
  | file n => cases h
  | dirError n => cases h
  | dirDenied n =>
    injection h with h1
    injection h1 with h2 h3
    subst h2
    simp
  | dir n es =>
    injection h with h1
    have := expand_loop_leaves args rel es [] c (by simp)
    rw [h1] at this
    exact this

theorem expand_ok_inv (args : Args) (rel : List String) (e : Entry)
    (c : Counts) (cs : List TreeNode) (c1 : Counts) (hf : c.full = false)
    (hinv : CountsInv c) (h : expand args rel e [] c = .ok (cs, c1)) :
    CountsInv c1 := by
  cases e with
  | file n => cases h
  | dirError n => cases h
  | dirDenied n =>
    injection h with h1
    injection h1 with h2 h3
    subst h3
    exact hinv
  | dir n es =>
    injection h with h1
    have := expand_loop_inv args rel es [] c hf hinv
    rw [h1] at this
    exact this

theorem expand_ok_counts (args : Args) (rel : List String) (e : Entry)
    (c : Counts) (cs : List TreeNode) (c1 : Counts) (hf : c.full = false)
    (h : expand args rel e [] c = .ok (cs, c1)) :
    c1.dir_count + c1.file_count =
      c.dir_count + c.file_count + countNodesList cs + flipNat c c1 := by
  cases e with
  | file n => cases h
  | dirError n => cases h
  | dirDenied n =>
    injection h with h1
    injection h1 with h2 h3
    subst h2
    subst h3
    simp [countNodesList, flipNat, hf]
  | dir n es =>
    injection h with h1
    have := expand_loop_counts args rel es [] c hf cs c1 h1
    simpa [countNodesList] using this

theorem expand_ok_dirs (args : Args) (rel : List String) (e : Entry)
    (c : Counts) (cs : List TreeNode) (c1 : Counts) (hd : args.d = true)
    (h : expand args rel e [] c = .ok (cs, c1)) :
    c1.file_count = c.file_count ∧ ∀ y ∈ cs, y.allDirs = true := by
  cases e with
  | file n => cases h
  | dirError n => cases h
  | dirDenied n =>
    injection h with h1
    injection h1 with h2 h3
    subst h2
    subst h3
    simp
  | dir n es =>
    injection h with h1
    have := expand_loop_dirs args rel es [] c hd
    rw [h1] at this
    exact ⟨this.1, this.2 (by simp)⟩

theorem expand_eq_append (args : Args) (rel : List String) (e : Entry)
    (c : Counts) :
    expand args rel e [] c = append_expand args rel e [] c := by
  cases e with
  | file n => rfl
  | dirError n => rfl
  | dirDenied n => rfl
  | dir n es =>
    simp only [expand, append_expand]
    rw [expand_loop_eq_append args rel es [] c (by simp)]

/-! ## Invariant: the running total never exceeds 200 -/

theorem generate_tree_inv (args : Args) : ∀ (level : Nat) (rel : List String)
    (e : Entry) (c : Counts), ∀ t c2,
    generate_tree args level rel e c = .ok (t, c2) → CountsInv c → CountsInv c2 := by
  refine generate_tree.induct args
    (fun level rel e c => ∀ t c2,
      generate_tree args level rel e c = .ok (t, c2) → CountsInv c → CountsInv c2)
    (fun level ts c => ∀ ts2 c2,
      generate_children args level ts c = .ok (ts2, c2) → CountsInv c → CountsInv c2)
    ?_ ?_ ?_ ?_ ?_ ?_ ?_ ?_ ?_ ?_
  · intro level rel e c hg t c2 heq hinv
    rw [generate_tree_of_guard args level rel e c hg] at heq
    injection heq with h1
    injection h1 with h2 h3
    subst h3
    exact hinv
  · intro level rel e c hg err herr t c2 heq hinv
    simp only [Bool.not_eq_true] at hg
    rw [generate_tree_of_expand_err args level rel e c err hg herr] at heq
    cases heq
  · intro level rel e c hg cs c1 he err hc ih t c2 heq hinv
    simp only [Bool.not_eq_true] at hg
    rw [generate_tree_of_children_err args level rel e c cs c1 err hg he hc] at heq
    cases heq
  · intro level rel e c hg cs c1 he cs2 c2 hc ih t c2x heq hinv
    simp only [Bool.not_eq_true] at hg
    rw [generate_tree_of_ok args level rel e c cs c1 cs2 c2 hg he hc] at heq
    injection heq with h1
    injection h1 with h2 h3
    subst h3
    have hf : c.full = false := by
      rcases Bool.or_eq_false_iff.mp hg with ⟨h4, h5⟩
      exact h4
    exact ih cs2 c2 hc (expand_ok_inv args rel e c cs c1 hf hinv he)
  · intro level c ts2 c2 heq hinv
    rw [generate_children_nil] at heq
    injection heq with h1
    injection h1 with h2 h3
    subst h3
    exact hinv
  · intro level t ts c hd err ht ih ts2 c2 heq hinv
    rw [generate_children_cons_dir_err args level t ts c err hd ht] at heq
    cases heq
  · intro level t ts c hd t2 c1 ht err hts ih1 ih2 ts2 c2 heq hinv
    rw [generate_children_cons_dir_children_err args level t ts c t2 c1 err hd ht hts] at heq
    cases heq
  · intro level t ts c hd t2 c1 ht ts2 c2 hts ih1 ih2 ts3 c3 heq hinv
    rw [generate_children_cons_dir_ok args level t ts c t2 c1 ts2 c2 hd ht hts] at heq
    injection heq with h1
    injection h1 with h2 h3
    subst h3
    exact ih2 ts2 c2 hts (ih1 t2 c1 ht hinv)
  · intro level t ts c hd err hts ih ts2 c2 heq hinv
    simp only [Bool.not_eq_true] at hd
    rw [generate_children_cons_nondir_err args level t ts c err hd hts] at heq
    cases heq
  · intro level t ts c hd ts2 c2 hts ih ts3 c3 heq hinv
    simp only [Bool.not_eq_true] at hd
    rw [generate_children_cons_nondir_ok args level t ts c ts2 c2 hd hts] at heq
    injection heq with h1
    injection h1 with h2 h3
    subst h3
    exact ih ts2 c2 hts hinv

theorem flipNat_comp (c c1 c2 : Counts) (h01 : c.full = true → c1.full = true)
    (h12 : c1.full = true → c2.full = true) :
    flipNat c c1 + flipNat c1 c2 = flipNat c c2 := by
  cases h : c.full <;> cases h1 : c1.full <;> cases h2 : c2.full <;>
    simp_all [flipNat]

theorem flipNat_refl (c : Counts) : flipNat c c = 0 := by
  cases h : c.full <;> simp [flipNat, h]

theorem allDirsList_iff (l : List TreeNode) :
    allDirsList l = true ↔ ∀ u ∈ l, u.allDirs = true := by
  induction l with
  | nil => simp [allDirsList]
  | cons t ts ih =>
    simp only [allDirsList, Bool.and_eq_true, ih, List.mem_cons]
    constructor
    · rintro ⟨h1, h2⟩ u hu
      rcases hu with rfl | hu
      · exact h1
      · exact h2 u hu
    · intro h
      exact ⟨h t (Or.inl rfl), fun u hu => h u (Or.inr hu)⟩

theorem allDirs_is_dir (t : TreeNode) (h : t.allDirs = true) :
    t.state.entry.is_dir = true := by
  cases t with
  | mk s cs =>
    simp only [TreeNode.allDirs, Bool.and_eq_true] at h
    exact h.1

theorem allDirs_mk (s : NodeState) (cs : List TreeNode) :
    (TreeNode.mk s cs).allDirs = (s.entry.is_dir && allDirsList cs) := rfl

theorem generate_tree_state (args : Args) (level : Nat) (rel : List String)
    (e : Entry) (c : Counts) (t : TreeNode) (c2 : Counts)
    (h : generate_tree args level rel e c = .ok (t, c2)) :
    ∃ cs, t = .mk ⟨rel, e⟩ cs := by
  by_cases hg : (c.full || (args.max_depth == some (level : Int))) = true
  · rw [generate_tree_of_guard args level rel e c hg] at h
    injection h with h1
    injection h1 with h2 h3
    exact ⟨[], h2.symm⟩
  · simp only [Bool.not_eq_true] at hg
    cases hexp : expand args rel e [] c with
    | error err =>
      rw [generate_tree_of_expand_err args level rel e c err hg hexp] at h
      cases h
    | ok p =>
      obtain ⟨cs, c1⟩ := p
      cases hch : generate_children args (level + 1) cs c1 with
      | error err =>
        rw [generate_tree_of_children_err args level rel e c cs c1 err hg hexp hch] at h
        cases h
      | ok q =>
        obtain ⟨cs2, c2x⟩ := q
        rw [generate_tree_of_ok args level rel e c cs c1 cs2 c2x hg hexp hch] at h
        injection h with h1
        injection h1 with h2 h3
        exact ⟨cs2, h2.symm⟩

/-! ## Accounting: counter changes equal nodes created plus one for the
entry that tripped the cap -/

theorem generate_tree_counts (args : Args) : ∀ (level : Nat)
    (rel : List String) (e : Entry) (c : Counts), ∀ t c2,
    generate_tree args level rel e c = .ok (t, c2) →
    (c2.dir_count + c2.file_count =
      c.dir_count + c.file_count + t.countNodes + flipNat c c2) ∧
    (c.full = true → c2.full = true) := by
  refine generate_tree.induct args
    (fun level rel e c => ∀ t c2,
      generate_tree args level rel e c = .ok (t, c2) →
      (c2.dir_count + c2.file_count =
        c.dir_count + c.file_count + t.countNodes + flipNat c c2) ∧
      (c.full = true → c2.full = true))
    (fun level ts c => (∀ u ∈ ts, u.children = []) → ∀ ts2 c2,
      generate_children args level ts c = .ok (ts2, c2) →
      (c2.dir_count + c2.file_count + countNodesList ts =
        c.dir_count + c.file_count + countNodesList ts2 + flipNat c c2) ∧
      (c.full = true → c2.full = true))
    ?_ ?_ ?_ ?_ ?_ ?_ ?_ ?_ ?_ ?_
  · intro level rel e c hg t c2 heq
    rw [generate_tree_of_guard args level rel e c hg] at heq
    injection heq with h1
    injection h1 with h2 h3
    subst h3
    subst h2
    have h0 : (TreeNode.mk ⟨rel, e⟩ []).countNodes = 0 := rfl
    rw [h0, flipNat_refl]
    exact ⟨by omega, fun h => h⟩
  · intro level rel e c hg err herr t c2 heq
    simp only [Bool.not_eq_true] at hg
    rw [generate_tree_of_expand_err args level rel e c err hg herr] at heq
    cases heq
  · intro level rel e c hg cs c1 he err hc ih t c2 heq
    simp only [Bool.not_eq_true] at hg
    rw [generate_tree_of_children_err args level rel e c cs c1 err hg he hc] at heq
    cases heq
  · intro level rel e c hg cs c1 he cs2 c2 hc ih t c2x heq
    simp only [Bool.not_eq_true] at hg
    rw [generate_tree_of_ok args level rel e c cs c1 cs2 c2 hg he hc] at heq
    injection heq with h1
    injection h1 with h2 h3
    subst h3
    subst h2
    have hf : c.full = false := (Bool.or_eq_false_iff.mp hg).1
    have hcounts := expand_ok_counts args rel e c cs c1 hf he
    have hleaves := expand_ok_leaves args rel e c cs c1 he
    have hih := ih hleaves cs2 c2 hc
    have h01 : c.full = true → c1.full = true := by
      intro h
      rw [hf] at h
      cases h
    have hcomp := flipNat_comp c c1 c2 h01 hih.2
    constructor
    · have hcn : (TreeNode.mk ⟨rel, e⟩ cs2).countNodes = countNodesList cs2 := rfl
      rw [hcn]
      have := hih.1
      omega
    · intro h
      rw [hf] at h
      cases h
  · intro level c hall ts2 c2 heq
    rw [generate_children_nil] at heq
    injection heq with h1
    injection h1 with h2 h3
    subst h3
    subst h2
    rw [flipNat_refl]
    exact ⟨by omega, fun h => h⟩
  · intro level t ts c hd err ht ih hall ts2 c2 heq
    rw [generate_children_cons_dir_err args level t ts c err hd ht] at heq
    cases heq
  · intro level t ts c hd t2 c1 ht err hts ih1 ih2 hall ts2 c2 heq
    rw [generate_children_cons_dir_children_err args level t ts c t2 c1 err hd ht hts] at heq
    cases heq
  · intro level t ts c hd t2 c1 ht ts2 c2 hts ih1 ih2 hall ts3 c3 heq
    rw [generate_children_cons_dir_ok args level t ts c t2 c1 ts2 c2 hd ht hts] at heq
    injection heq with h1
    injection h1 with h2 h3
    subst h3
    subst h2
    have htl : t.children = [] := hall t (List.mem_cons_self t ts)
    have htcn : t.countNodes = 0 := countNodes_of_leaf t htl
    have h1 := ih1 t2 c1 ht
    have h2x := ih2 (fun u hu => hall u (List.mem_cons_of_mem t hu)) ts2 c2 hts
    have hcomp := flipNat_comp c c1 c2 h1.2 h2x.2
    constructor
    · simp only [countNodesList]
      have ha := h1.1
      have hb := h2x.1
      omega
    · exact fun h => h2x.2 (h1.2 h)
  · intro level t ts c hd err hts ih hall ts2 c2 heq
    simp only [Bool.not_eq_true] at hd
    rw [generate_children_cons_nondir_err args level t ts c err hd hts] at heq
    cases heq
  · intro level t ts c hd ts2 c2 hts ih hall ts3 c3 heq
    simp only [Bool.not_eq_true] at hd
    rw [generate_children_cons_nondir_ok args level t ts c ts2 c2 hd hts] at heq
    injection heq with h1
    injection h1 with h2 h3
    subst h3
    subst h2
    have hih := ih (fun u hu => hall u (List.mem_cons_of_mem t hu)) ts2 c2 hts
    constructor
    · simp only [countNodesList]
      have := hih.1
      omega
    · exact hih.2

/-! ## Depth limiting: no node deeper than `max_depth` -/

theorem generate_tree_height (args : Args) (k : Nat)
    (hk : args.max_depth = some (k : Int)) : ∀ (level : Nat)
    (rel : List String) (e : Entry) (c : Counts), ∀ t c2,
    generate_tree args level rel e c = .ok (t, c2) → level ≤ k →
    t.height + level ≤ k := by
  refine generate_tree.induct args
    (fun level rel e c => ∀ t c2,
      generate_tree args level rel e c = .ok (t, c2) → level ≤ k →
      t.height + level ≤ k)
    (fun level ts c => (∀ u ∈ ts, u.children = []) → ∀ ts2 c2,
      generate_children args level ts c = .ok (ts2, c2) → level ≤ k →
      ∀ u ∈ ts2, u.height + level ≤ k)
    ?_ ?_ ?_ ?_ ?_ ?_ ?_ ?_ ?_ ?_
  · intro level rel e c hg t c2 heq hlev
    rw [generate_tree_of_guard args level rel e c hg] at heq
    injection heq with h1
    injection h1 with h2 h3
    subst h2
    have h0 : (TreeNode.mk ⟨rel, e⟩ []).height = 0 := rfl
    omega
  · intro level rel e c hg err herr t c2 heq hlev
    simp only [Bool.not_eq_true] at hg
    rw [generate_tree_of_expand_err args level rel e c err hg herr] at heq
    cases heq
  · intro level rel e c hg cs c1 he err hc ih t c2 heq hlev
    simp only [Bool.not_eq_true] at hg
    rw [generate_tree_of_children_err args level rel e c cs c1 err hg he hc] at heq
    cases heq
  · intro level rel e c hg cs c1 he cs2 c2 hc ih t c2x heq hlev
    simp only [Bool.not_eq_true] at hg
    rw [generate_tree_of_ok args level rel e c cs c1 cs2 c2 hg he hc] at heq
    injection heq with h1
    injection h1 with h2 h3
    subst h2
    have hmd := (Bool.or_eq_false_iff.mp hg).2
    rw [hk] at hmd
    have hne : k ≠ level := by
      intro hcontra
      subst hcontra
      simp at hmd
    have hlt : level < k := by omega
    have hleaves := expand_ok_leaves args rel e c cs c1 he
    have hih := ih hleaves cs2 c2 hc (by omega)
    have h0 : (TreeNode.mk ⟨rel, e⟩ cs2).height = heightList cs2 := rfl
    rw [h0]
    have hbound := heightList_le cs2 (k - level) (by
      intro u hu
      have := hih u hu
      omega)
    omega
  · intro level c hall ts2 c2 heq hlev u hu
    rw [generate_children_nil] at heq
    injection heq with h1
    injection h1 with h2 h3
    subst h2
    cases hu
  · intro level t ts c hd err ht ih hall ts2 c2 heq hlev
    rw [generate_children_cons_dir_err args level t ts c err hd ht] at heq
    cases heq
  · intro level t ts c hd t2 c1 ht err hts ih1 ih2 hall ts2 c2 heq hlev
    rw [generate_children_cons_dir_children_err args level t ts c t2 c1 err hd ht hts] at heq
    cases heq
  · intro level t ts c hd t2 c1 ht ts2 c2 hts ih1 ih2 hall ts3 c3 heq hlev u hu
    rw [generate_children_cons_dir_ok args level t ts c t2 c1 ts2 c2 hd ht hts] at heq
    injection heq with h1
    injection h1 with h2 h3
    subst h2
    rcases List.mem_cons.mp hu with rfl | hu
    · exact ih1 u c1 ht hlev
    · exact ih2 (fun v hv => hall v (List.mem_cons_of_mem t hv)) ts2 c2 hts hlev u hu
  · intro level t ts c hd err hts ih hall ts2 c2 heq hlev
    simp only [Bool.not_eq_true] at hd
    rw [generate_children_cons_nondir_err args level t ts c err hd hts] at heq
    cases heq
  · intro level t ts c hd ts2 c2 hts ih hall ts3 c3 heq hlev u hu
    simp only [Bool.not_eq_true] at hd
    rw [generate_children_cons_nondir_ok args level t ts c ts2 c2 hd hts] at heq
    injection heq with h1
    injection h1 with h2 h3
    subst h2
    rcases List.mem_cons.mp hu with rfl | hu
    · have htl : u.children = [] := hall u (List.mem_cons_self u ts)
      have := height_of_leaf u htl
      omega
    · exact ih (fun v hv => hall v (List.mem_cons_of_mem t hv)) ts2 c2 hts hlev u hu

/-! ## Directories-only filter -/

theorem generate_tree_dirs (args : Args) (hd : args.d = true) : ∀ (level : Nat)
    (rel : List String) (e : Entry) (c : Counts), ∀ t c2,
    generate_tree args level rel e c = .ok (t, c2) →
    c2.file_count = c.file_count ∧ allDirsList t.children = true := by
  refine generate_tree.induct args
    (fun level rel e c => ∀ t c2,
      generate_tree args level rel e c = .ok (t, c2) →
      c2.file_count = c.file_count ∧ allDirsList t.children = true)
    (fun level ts c => (∀ u ∈ ts, u.allDirs = true) → ∀ ts2 c2,
      generate_children args level ts c = .ok (ts2, c2) →
      c2.file_count = c.file_count ∧ ∀ u ∈ ts2, u.allDirs = true)
    ?_ ?_ ?_ ?_ ?_ ?_ ?_ ?_ ?_ ?_
  · intro level rel e c hg t c2 heq
    rw [generate_tree_of_guard args level rel e c hg] at heq
    injection heq with h1
    injection h1 with h2 h3
    subst h2
    subst h3
    exact ⟨rfl, rfl⟩
  · intro level rel e c hg err herr t c2 heq
    simp only [Bool.not_eq_true] at hg
    rw [generate_tree_of_expand_err args level rel e c err hg herr] at heq
    cases heq
  · intro level rel e c hg cs c1 he err hc ih t c2 heq
    simp only [Bool.not_eq_true] at hg
    rw [generate_tree_of_children_err args level rel e c cs c1 err hg he hc] at heq
    cases heq
  · intro level rel e c hg cs c1 he cs2 c2 hc ih t c2x heq
    simp only [Bool.not_eq_true] at hg
    rw [generate_tree_of_ok args level rel e c cs c1 cs2 c2 hg he hc] at heq
    injection heq with h1
    injection h1 with h2 h3
    subst h2
    subst h3
    have hexp := expand_ok_dirs args rel e c cs c1 hd he
    have hih := ih hexp.2 cs2 c2 hc
    constructor
    · rw [hih.1, hexp.1]
    · have h0 : (TreeNode.mk ⟨rel, e⟩ cs2).children = cs2 := rfl
      rw [h0]
      exact (allDirsList_iff cs2).mpr hih.2
  · intro level c hall ts2 c2 heq
    rw [generate_children_nil] at heq
    injection heq with h1
    injection h1 with h2 h3
    subst h2
    subst h3
    exact ⟨rfl, fun u hu => absurd hu (List.not_mem_nil u)⟩
  · intro level t ts c hdir err ht ih hall ts2 c2 heq
    rw [generate_children_cons_dir_err args level t ts c err hdir ht] at heq
    cases heq
  · intro level t ts c hdir t2 c1 ht err hts ih1 ih2 hall ts2 c2 heq
    rw [generate_children_cons_dir_children_err args level t ts c t2 c1 err hdir ht hts] at heq
    cases heq
  · intro level t ts c hdir t2 c1 ht ts2 c2 hts ih1 ih2 hall ts3 c3 heq
    rw [generate_children_cons_dir_ok args level t ts c t2 c1 ts2 c2 hdir ht hts] at heq
    injection heq with h1
    injection h1 with h2 h3
    subst h2
    subst h3
    have h1x := ih1 t2 c1 ht
    have h2x := ih2 (fun v hv => hall v (List.mem_cons_of_mem t hv)) ts2 c2 hts
    obtain ⟨cs0, hshape⟩ := generate_tree_state args level t.state.rel t.state.entry c t2 c1 ht
    constructor
    · rw [h2x.1, h1x.1]
    · intro u hu
      rcases List.mem_cons.mp hu with rfl | hu
      · rw [hshape, allDirs_mk]
        have hch : (TreeNode.mk ⟨t.state.rel, t.state.entry⟩ cs0).children = cs0 := rfl
        rw [hshape, hch] at h1x
        simp [hdir, h1x.2]
      · exact h2x.2 u hu
  · intro level t ts c hdir err hts ih hall ts2 c2 heq
    simp only [Bool.not_eq_true] at hdir
    rw [generate_children_cons_nondir_err args level t ts c err hdir hts] at heq
    cases heq
  · intro level t ts c hdir ts2 c2 hts ih hall ts3 c3 heq
    simp only [Bool.not_eq_true] at hdir
    have habs := allDirs_is_dir t (hall t (List.mem_cons_self t ts))
    rw [hdir] at habs
    cases habs

/-! ## Equivalence of the insort-based and the append-based builders -/

theorem generate_tree_eq_append (args : Args) : ∀ (level : Nat)
    (rel : List String) (e : Entry) (c : Counts),
    generate_tree args level rel e c =
      append_generate_tree args level rel e c := by
  refine generate_tree.induct args
    (fun level rel e c =>
      generate_tree args level rel e c =
        append_generate_tree args level rel e c)
    (fun level ts c => (∀ u ∈ ts, u.children = []) →
      generate_children args level ts c =
        append_generate_children args level ts c)
    ?_ ?_ ?_ ?_ ?_ ?_ ?_ ?_ ?_ ?_
  · intro level rel e c hg
    rw [generate_tree_of_guard args level rel e c hg,
      append_generate_tree_of_guard args level rel e c hg]
  · intro level rel e c hg err herr
    simp only [Bool.not_eq_true] at hg
    have he2 : append_expand args rel e [] c = .error err := by
      rw [← expand_eq_append]
      exact herr
    rw [generate_tree_of_expand_err args level rel e c err hg herr,
      append_generate_tree_of_expand_err args level rel e c err hg he2]
  · intro level rel e c hg cs c1 he err hc ih
    simp only [Bool.not_eq_true] at hg
    have hleaves := expand_ok_leaves args rel e c cs c1 he
    have he2 : append_expand args rel e [] c = .ok (cs, c1) := by
      rw [← expand_eq_append]
      exact he
    have hc2 : append_generate_children args (level + 1) cs c1 = .error err := by
      rw [← ih hleaves]
      exact hc
    rw [generate_tree_of_children_err args level rel e c cs c1 err hg he hc,
      append_generate_tree_of_children_err args level rel e c cs c1 err hg he2 hc2]
  · intro level rel e c hg cs c1 he cs2 c2 hc ih
    simp only [Bool.not_eq_true] at hg
    have hleaves := expand_ok_leaves args rel e c cs c1 he
    have he2 : append_expand args rel e [] c = .ok (cs, c1) := by
      rw [← expand_eq_append]
      exact he
    have hc2 : append_generate_children args (level + 1) cs c1 = .ok (cs2, c2) := by
      rw [← ih hleaves]
      exact hc
    rw [generate_tree_of_ok args level rel e c cs c1 cs2 c2 hg he hc,
      append_generate_tree_of_ok args level rel e c cs c1 cs2 c2 hg he2 hc2]
  · intro level c hall
    rw [generate_children_nil, append_generate_children_nil]
  · intro level t ts c hd err ht ih1 hall
    have ht2 : append_generate_tree args level t.state.rel t.state.entry c = .error err := by
      rw [← ih1]
      exact ht
    rw [generate_children_cons_dir_err args level t ts c err hd ht,
      append_generate_children_cons_dir_err args level t ts c err hd ht2]
  · intro level t ts c hd t2 c1 ht err hts ih1 ih2 hall
    have ht2 : append_generate_tree args level t.state.rel t.state.entry c = .ok (t2, c1) := by
      rw [← ih1]
      exact ht
    have hts2 : append_generate_children args level ts c1 = .error err := by
      rw [← ih2 (fun v hv => hall v (List.mem_cons_of_mem t hv))]
      exact hts
    rw [generate_children_cons_dir_children_err args level t ts c t2 c1 err hd ht hts,
      append_generate_children_cons_dir_children_err args level t ts c t2 c1 err hd ht2 hts2]
  · intro level t ts c hd t2 c1 ht ts2 c2 hts ih1 ih2 hall
    have ht2 : append_generate_tree args level t.state.rel t.state.entry c = .ok (t2, c1) := by
      rw [← ih1]
      exact ht
    have hts2 : append_generate_children args level ts c1 = .ok (ts2, c2) := by
      rw [← ih2 (fun v hv => hall v (List.mem_cons_of_mem t hv))]
      exact hts
    rw [generate_children_cons_dir_ok args level t ts c t2 c1 ts2 c2 hd ht hts,
      append_generate_children_cons_dir_ok args level t ts c t2 c1 ts2 c2 hd ht2 hts2]
  · intro level t ts c hd err hts ih hall
    simp only [Bool.not_eq_true] at hd
    have hts2 : append_generate_children args level ts c = .error err := by
      rw [← ih (fun v hv => hall v (List.mem_cons_of_mem t hv))]
      exact hts
    rw [generate_children_cons_nondir_err args level t ts c err hd hts,
      append_generate_children_cons_nondir_err args level t ts c err hd hts2]
  · intro level t ts c hd ts2 c2 hts ih hall
    simp only [Bool.not_eq_true] at hd
    have hts2 : append_generate_children args level ts c = .ok (ts2, c2) := by
      rw [← ih (fun v hv => hall v (List.mem_cons_of_mem t hv))]
      exact hts
    rw [generate_children_cons_nondir_ok args level t ts c ts2 c2 hd hts,
      append_generate_children_cons_nondir_ok args level t ts c ts2 c2 hd hts2]

/-- The two builds agree on every input. -/
theorem build_eq_appendBuild (args : Args) (directory : Entry) :
    Tree.build args directory = Tree.appendBuild args directory := by
  simp only [Tree.build, Tree.appendBuild, generate_tree_eq_append]

/-! ## Text renderer equals its specification -/

theorem joinLines_cons (l : String) (ls : List String) :
    joinLines (l :: ls) = (l ++ "\n") ++ joinLines ls := by
  simp [joinLines]

theorem foldr_append_str (ls : List String) (b : String) :
    ls.foldr (fun a x => a ++ x) b =
      ls.foldr (fun a x => a ++ x) "" ++ b := by
  induction ls with
  | nil =>
    simp [List.foldr_nil]
  | cons a ls ih =>
    simp only [List.foldr_cons, ih]
    rw [String.append_assoc]

theorem joinLines_append (l1 l2 : List String) :
    joinLines (l1 ++ l2) = joinLines l1 ++ joinLines l2 := by
  simp only [joinLines, List.map_append, List.foldr_append]
  rw [foldr_append_str]

theorem format_tree_eq_spec (args : Args) (sep : String) :
    ∀ (ts : List TreeNode) (branch : String),
    format_tree args sep ts branch =
      joinLines (specForestLines args sep ts branch) := by
  refine format_tree.induct args sep
    (fun ts branch =>
      format_tree args sep ts branch =
        joinLines (specForestLines args sep ts branch)) ?_ ?_
  · intro branch
    rw [format_tree]
    rw [specForestLines]
    simp [joinLines]
  · intro s cs ts branch ih1 ih2
    simp only [dite_eq_ite] at ih1
    rw [format_tree]
    rw [specForestLines, specNodeLines]
    rw [joinLines_append, joinLines_cons]
    cases his : s.entry.is_file <;> cases hemp : ts.isEmpty <;>
      simp only [his, hemp] at ih1 ⊢ <;>
      simp only [Bool.false_eq_true, Bool.true_eq_false, if_true, if_false,
        eq_self_iff_true] at ih1 <;>
      simp [ih1, ih2, specConnector, specExtension, highlight, String.append_assoc]

/-! ## XML renderer facts -/

theorem xmlMatches_build : ∀ t : TreeNode,
    xmlMatches t (build_xml_element t) = true := by
  refine build_xml_element.induct
    (fun t => xmlMatches t (build_xml_element t) = true)
    (fun ts => xmlMatchesList ts (build_xml_list ts) = true) ?_ ?_ ?_
  · intro s cs ih
    rw [build_xml_element]
    simp only [xmlMatches, specXmlName, ih, Bool.and_true]
    simp
  · rfl
  · intro y ys ih1 ih2
    show xmlMatchesList (y :: ys) (build_xml_element y :: build_xml_list ys) = true
    rw [xmlMatchesList]
    simp [ih1, ih2]

theorem build_xml_countElems : ∀ t : TreeNode,
    (build_xml_element t).countElems = 1 + t.countNodes := by
  refine build_xml_element.induct
    (fun t => (build_xml_element t).countElems = 1 + t.countNodes)
    (fun ts => countElemsList (build_xml_list ts) = countNodesList ts) ?_ ?_ ?_
  · intro s cs ih
    rw [build_xml_element]
    simp only [XmlElem.countElems, TreeNode.countNodes, ih]
  · rfl
  · intro y ys ih1 ih2
    show countElemsList (build_xml_element y :: build_xml_list ys) = countNodesList (y :: ys)
    simp only [countElemsList, countNodesList, ih1, ih2]
    try omega

theorem build_xml_allNodeShaped : ∀ t : TreeNode,
    (build_xml_element t).allNodeShaped = true := by
  refine build_xml_element.induct
    (fun t => (build_xml_element t).allNodeShaped = true)
    (fun ts => allNodeShapedList (build_xml_list ts) = true) ?_ ?_ ?_
  · intro s cs ih
    rw [build_xml_element]
    simp [XmlElem.allNodeShaped, ih]
  · rfl
  · intro y ys ih1 ih2
    show allNodeShapedList (build_xml_element y :: build_xml_list ys) = true
    rw [allNodeShapedList]
    simp [ih1, ih2]

/-! ## A maximal-depth chain of directories, witnessing that an unset
`max_depth` does not bound the recursion -/

/-- A nested chain of `n + 1` directories, all named `d`. -/
def chain : Nat → Entry
  | 0 => .dir "d" []
  | n + 1 => .dir "d" [chain n]

theorem chain_is_dir (n : Nat) : (chain n).is_dir = true := by
  cases n <;> rfl

theorem chain_name (n : Nat) : (chain n).name = "d" := by
  cases n <;> rfl

theorem should_include_chain (args : Args) (n : Nat) :
    should_include args (chain n) = true := by
  have h1 : strStartsWith "d" "." = false := by decide
  have h2 : strStartsWith "d" "__" = false := by decide
  have h3 : (chain n).is_file = false := by
    simp [Entry.is_file, chain_is_dir]
  simp [should_include, chain_name, h1, h2, h3]

theorem expand_loop_single (args : Args) (rel : List String) (e : Entry)
    (c : Counts) (hsi : should_include args e = true)
    (hnf : (increment_counts c e).full = false) :
    expand_loop args rel [e] [] c =
      ([.mk ⟨rel ++ [e.name], e⟩ []], increment_counts c e) := by
  simp [expand_loop, hsi, hnf, insort]

theorem generate_tree_chain (args : Args) (hmd : args.max_depth = none) :
    ∀ (n : Nat) (level : Nat) (rel : List String) (c : Counts),
    c.full = false → c.dir_count + c.file_count + n < 200 →
    ∃ t c2, generate_tree args level rel (chain n) c = .ok (t, c2) ∧
      t.height = n ∧ c2.full = false ∧
      c2.dir_count + c2.file_count = c.dir_count + c.file_count + n := by
  intro n
  induction n with
  | zero =>
    intro level rel c hf hlt
    refine ⟨.mk ⟨rel, chain 0⟩ [], c, ?_, rfl, hf, by omega⟩
    apply generate_tree_of_ok args level rel (chain 0) c [] c [] c
    · simp [hf, hmd]
    · rfl
    · exact generate_children_nil args (level + 1) c
  | succ n ih =>
    intro level rel c hf hlt
    have hful := increment_counts_full c (chain n)
    rw [hf] at hful
    simp only [Bool.false_or] at hful
    have htot := increment_counts_total c (chain n)
    have hnf : (increment_counts c (chain n)).full = false := by
      rw [hful]
      simp only [decide_eq_false_iff_not, Nat.not_le]
      omega
    obtain ⟨t, c2, hgen, hh, hf2, hcnt⟩ :=
      ih (level + 1) (rel ++ ["d"]) (increment_counts c (chain n)) hnf (by omega)
    refine ⟨.mk ⟨rel, chain (n + 1)⟩ [t], c2, ?_, ?_, hf2, by omega⟩
    · apply generate_tree_of_ok args level rel (chain (n + 1)) c
        [.mk ⟨rel ++ ["d"], chain n⟩ []] (increment_counts c (chain n))
        [t] c2
      · simp [hf, hmd]
      · show Except.ok (expand_loop args rel [chain n] [] c) = _
        rw [expand_loop_single args rel (chain n) c (should_include_chain args n) hnf]
        rw [chain_name]
      · apply generate_children_cons_dir_ok args (level + 1)
          (.mk ⟨rel ++ ["d"], chain n⟩ []) [] (increment_counts c (chain n)) t c2 [] c2
        · exact chain_is_dir n
        · exact hgen
        · exact generate_children_nil args (level + 1) c2
    · show heightList [t] = n + 1
      simp [heightList, hh]

/-! ## Unpacking a successful build -/

theorem build_ok_elim (args : Args) (e : Entry) (t : Tree)
    (h : Tree.build args e = .ok t) :
    ∃ root c2, generate_tree args 0 [] e initCounts = .ok (root, c2) ∧
      t.root = root ∧ t.dir_count = c2.dir_count ∧
      t.file_count = c2.file_count ∧ t.full = c2.full := by
  cases hgen : generate_tree args 0 [] e initCounts with
  | error err =>
    simp only [Tree.build, hgen] at h
    cases h
  | ok p =>
    obtain ⟨root, c2⟩ := p
    simp only [Tree.build, hgen] at h
    injection h with h1
    refine ⟨root, c2, rfl, ?_, ?_, ?_, ?_⟩ <;> rw [← h1]

/-! ## Witness fixtures -/

/-- Default flags: no hidden entries, all kinds, bare names, no depth
limit. -/
def argsW : Args := ⟨false, false, false, false, none⟩

/-- A small filesystem: a root with one file and one subdirectory
holding one file. -/
def fsW : Entry := .dir "r" [.file "a", .dir "s" [.file "b"]]

/-- The tree the build produces for `fsW` under `argsW`. -/
def treeW : Tree :=
  ⟨.mk ⟨[], fsW⟩
    [.mk ⟨["a"], .file "a"⟩ [],
     .mk ⟨["s"], .dir "s" [.file "b"]⟩ [.mk ⟨["s", "b"], .file "b"⟩ []]],
    1, 2, false⟩

theorem build_fsW : Tree.build argsW fsW = .ok treeW := by
  simp +decide [Tree.build, generate_tree, generate_children, expand,
    expand_loop, should_include, increment_counts, insort, initCounts,
    strStartsWith, Entry.name, Entry.is_dir, Entry.is_file,
    TreeNode.state, TreeNode.children, TreeNode.lt, TreeNode.len,
    argsW, fsW, treeW]

theorem countsInv_init : CountsInv initCounts := by
  constructor
  · show 0 + 0 ≤ 200
    omega
  · intro h
    show 0 + 0 < 200
    omega

/-! ## The claims -/

/-- C1: once the truncation flag is set, no further node is created
anywhere in the tree at any level for the remainder of the build (any
later `generate_tree` call returns its node untouched, with no children
and unchanged counters, and the loop that tripped the flag breaks at
once, counting the triggering entry but creating no node for it); and
the final `dir_count + file_count` of a build never exceeds 200 (in
particular never by more than the single triggering entry). -/
theorem claim_C1_global_truncation :
    (∀ (args : Args) (level : Nat) (rel : List String) (e : Entry)
      (c : Counts), c.full = true →
      generate_tree args level rel e c = .ok (.mk ⟨rel, e⟩ [], c)) ∧
    (∀ (args : Args) (rel : List String) (e : Entry) (rest : List Entry)
      (acc : List TreeNode) (c : Counts), should_include args e = true →
      (increment_counts c e).full = true →
      expand_loop args rel (e :: rest) acc c = (acc, increment_counts c e)) ∧
    (∀ (args : Args) (e : Entry) (t : Tree), Tree.build args e = .ok t →
      t.dir_count + t.file_count ≤ 200) := by
  refine ⟨?_, ?_, ?_⟩
  · intro args level rel e c hful
    exact generate_tree_of_full args level rel e c hful
  · intro args rel e rest acc c hsi hful
    simp [expand_loop, hsi, hful]
  · intro args e t h
    obtain ⟨root, c2, hgen, hroot, hd, hf, hful⟩ := build_ok_elim args e t h
    have hinv := generate_tree_inv args 0 [] e initCounts root c2 hgen countsInv_init
    rw [hd, hf]
    exact hinv.1

/-- Witness for C1 at concrete inputs: a call with the flag already set
returns the bare node and unchanged counters; a loop iteration that
reaches the 200th entry counts it, creates no node and stops; a small
build stays within the cap. -/
theorem claim_C1_global_truncation_witness :
    generate_tree argsW 0 [] (.file "x") ⟨3, 2, true⟩ =
      .ok (.mk ⟨[], .file "x"⟩ [], ⟨3, 2, true⟩) ∧
    expand_loop argsW [] [.file "x"] [] ⟨100, 99, false⟩ =
      ([], ⟨100, 100, true⟩) ∧
    treeW.dir_count + treeW.file_count ≤ 200 := by
  refine ⟨?_, ?_, ?_⟩
  · exact claim_C1_global_truncation.1 argsW 0 [] (.file "x") ⟨3, 2, true⟩ rfl
  · have h := claim_C1_global_truncation.2.1 argsW [] (.file "x") [] []
      ⟨100, 99, false⟩ (by decide) (by decide)
    exact h.trans (by rfl)
  · exact claim_C1_global_truncation.2.2 argsW fsW treeW build_fsW

/-- C2: `add_child` keeps the children sequence in ascending order by
child count (the count each sibling has at the moment of comparison):
inserting into a sorted sequence yields a sorted sequence, and the new
child lands exactly after every sibling whose count is less than or
equal to its own (ties keep insertion order) and before every sibling
with a strictly greater count. -/
theorem claim_C2_sorted_insertion :
    ∀ (t x : TreeNode),
    List.Sorted (fun u v : TreeNode => u.len ≤ v.len) t.children →
    List.Sorted (fun u v : TreeNode => u.len ≤ v.len) (t.add_child x).children ∧
    (t.add_child x).children =
      t.children.takeWhile (fun y => !(TreeNode.lt x y)) ++
        x :: t.children.dropWhile (fun y => !(TreeNode.lt x y)) := by
  intro t x h
  constructor
  · show List.Sorted _ (insort x t.children)
    exact insort_sorted x t.children h
  · show insort x t.children = _
    exact insort_takeWhile_dropWhile x t.children

/-- Witness for C2 at a concrete node with two sorted children. -/
theorem claim_C2_sorted_insertion_witness :
    List.Sorted (fun u v : TreeNode => u.len ≤ v.len)
      (TreeNode.mk ⟨[], .dir "r" []⟩
        [.mk ⟨["a"], .file "a"⟩ []]).children ∧
    (List.Sorted (fun u v : TreeNode => u.len ≤ v.len)
      ((TreeNode.mk ⟨[], .dir "r" []⟩
        [.mk ⟨["a"], .file "a"⟩ []]).add_child (.mk ⟨["b"], .file "b"⟩ [])).children ∧
    ((TreeNode.mk ⟨[], .dir "r" []⟩
        [.mk ⟨["a"], .file "a"⟩ []]).add_child (.mk ⟨["b"], .file "b"⟩ [])).children =
      [.mk ⟨["a"], .file "a"⟩ []].takeWhile
          (fun y => !(TreeNode.lt (.mk ⟨["b"], .file "b"⟩ []) y)) ++
        .mk ⟨["b"], .file "b"⟩ [] ::
          [.mk ⟨["a"], .file "a"⟩ []].dropWhile
            (fun y => !(TreeNode.lt (.mk ⟨["b"], .file "b"⟩ []) y))) := by
  constructor
  · simp [TreeNode.children, List.pairwise_singleton]
  · exact claim_C2_sorted_insertion
      (TreeNode.mk ⟨[], .dir "r" []⟩ [.mk ⟨["a"], .file "a"⟩ []])
      (.mk ⟨["b"], .file "b"⟩ [])
      (by simp [TreeNode.children, List.pairwise_singleton])

/-- The arguments of the C3 scenario: `max_depth = 0`, everything else
off. -/
def argsC3 : Args := ⟨false, false, false, false, some 0⟩

/-- The filesystem of the C3 scenario: a root with one visible file. -/
def fsC3 : Entry := .dir "r" [.file "a"]

/-- C3 counterexample: with `max_depth = 0` the builder returns before
listing anything, so the root's immediate children do NOT appear (the
claim predicts a node for `a` under the root) and the counters stay
zero. -/
theorem claim_C3_counterexample :
    Tree.build argsC3 fsC3 = .ok ⟨.mk ⟨[], fsC3⟩ [], 0, 0, false⟩ ∧
    ¬ ∃ t, Tree.build argsC3 fsC3 = .ok t ∧ t.root.children ≠ [] := by
  have hgt : generate_tree argsC3 0 [] fsC3 initCounts =
      .ok (.mk ⟨[], fsC3⟩ [], initCounts) :=
    generate_tree_of_guard argsC3 0 [] fsC3 initCounts (by decide)
  constructor
  · simp only [Tree.build, hgt]
    rfl
  · rintro ⟨t, ht, hne⟩
    simp only [Tree.build, hgt] at ht
    injection ht with ht1
    apply hne
    rw [← ht1]
    rfl

/-- C3 amended: with `max_depth = 0` the builder lists nothing at all:
the result is the bare root with no children, both counters zero and
`truncated` false (the source compares the current level with
`max_depth` before expanding, and the root is already at level 0). -/
theorem claim_C3_amended (args : Args) (e : Entry)
    (h : args.max_depth = some 0) :
    Tree.build args e = .ok ⟨.mk ⟨[], e⟩ [], 0, 0, false⟩ := by
  have hgt : generate_tree args 0 [] e initCounts =
      .ok (.mk ⟨[], e⟩ [], initCounts) := by
    apply generate_tree_of_guard
    rw [h]
    rfl
  simp only [Tree.build, hgt]
  rfl

/-- Witness for the amended C3 at the concrete scenario. -/
theorem claim_C3_amended_witness :
    Tree.build argsC3 fsC3 = .ok ⟨.mk ⟨[], fsC3⟩ [], 0, 0, false⟩ :=
  claim_C3_amended argsC3 fsC3 rfl

/-- C4: with `max_depth = k` no node of the built tree sits at recursion
depth greater than `k` below the root; with `max_depth` unset the depth
is unlimited: for every `n` up to the 200-entry cap there is a
directory chain whose build reaches height exactly `n`. -/
theorem claim_C4_depth_limit :
    (∀ (k : Nat) (args : Args) (e : Entry) (t : Tree),
      args.max_depth = some (k : Int) → Tree.build args e = .ok t →
      t.root.height ≤ k) ∧
    (∀ (args : Args) (n : Nat), args.max_depth = none → n ≤ 199 →
      ∃ t, Tree.build args (chain n) = .ok t ∧ t.root.height = n) := by
  constructor
  · intro k args e t hk h
    obtain ⟨root, c2, hgen, hroot, _, _, _⟩ := build_ok_elim args e t h
    have hh := generate_tree_height args k hk 0 [] e initCounts root c2 hgen
      (Nat.zero_le k)
    rw [hroot]
    omega
  · intro args n hmd hn
    obtain ⟨t, c2, hgen, hh, _, _⟩ :=
      generate_tree_chain args hmd n 0 [] initCounts rfl (by simp [initCounts]; omega)
    refine ⟨⟨t, c2.dir_count, c2.file_count, c2.full⟩, ?_, hh⟩
    simp only [Tree.build, hgen]

/-- Witness for C4: a depth-1 limited build of `fsW` has height at most
1, and the unlimited build of the chain of length 3 reaches height 3. -/
theorem claim_C4_depth_limit_witness :
    (∃ t, Tree.build ⟨false, false, false, false, some 1⟩ fsW = .ok t ∧
      t.root.height ≤ 1) ∧
    (∃ t, Tree.build argsW (chain 3) = .ok t ∧ t.root.height = 3) := by
  constructor
  · have hb : Tree.build ⟨false, false, false, false, some 1⟩ fsW =
        .ok ⟨.mk ⟨[], fsW⟩
          [.mk ⟨["a"], .file "a"⟩ [],
           .mk ⟨["s"], .dir "s" [.file "b"]⟩ []], 1, 1, false⟩ := by
      simp +decide [Tree.build, generate_tree, generate_children, expand,
        expand_loop, should_include, increment_counts, insort, initCounts,
        strStartsWith, Entry.name, Entry.is_dir, Entry.is_file,
        TreeNode.state, TreeNode.children, TreeNode.lt, TreeNode.len, fsW]
    refine ⟨_, hb, ?_⟩
    exact claim_C4_depth_limit.1 1 ⟨false, false, false, false, some 1⟩ fsW _ rfl hb
  · exact claim_C4_depth_limit.2 argsW 3 rfl (by omega)

/-- C5: the rendered text is exactly the specification's description:
a header with the root entry's own name, one line per node with
connector `"└── "` for a last child and `"├── "` otherwise, the branch
prefix extended by four spaces after a last child and by a vertical-bar
guide plus three spaces otherwise, then a blank line, the
`"Directories: <dir_count>, Files: <file_count>"` footer, and the line
`"Output limited to 200 elements."` appended exactly when `full` is
set. -/
theorem claim_C5_text_render (args : Args) (sep : String) (t : Tree) :
    treeStr args sep t = renderSpec args sep t := by
  simp only [treeStr, renderSpec, highlight, truncationNotice]
  rw [format_tree_eq_spec]
  cases hf : t.full <;>
    simp [hf, String.append_assoc]

/-- C6: the XML document maps each in-memory node to exactly one
element: tag `"node"`, a single `name` attribute holding the bare
filename with `/` appended exactly for directories, child elements in
the stored children order; every element of the document has this shape
(so the counters and the truncation flag appear nowhere), and the
element count equals the node count. -/
theorem claim_C6_xml_render (t : TreeNode) :
    xmlMatches t (build_xml_element t) = true ∧
    (build_xml_element t).countElems = 1 + t.countNodes ∧
    (build_xml_element t).allNodeShaped = true :=
  ⟨xmlMatches_build t, build_xml_countElems t, build_xml_allNodeShaped t⟩

/-- C7: with `directories_only` set, every build has `file_count = 0`
and every node below the root is a directory. -/
theorem claim_C7_directories_only (args : Args) (e : Entry) (t : Tree)
    (hd : args.d = true) (h : Tree.build args e = .ok t) :
    t.file_count = 0 ∧ allDirsList t.root.children = true := by
  obtain ⟨root, c2, hgen, hroot, _, hfc, _⟩ := build_ok_elim args e t h
  have hdirs := generate_tree_dirs args hd 0 [] e initCounts root c2 hgen
  constructor
  · rw [hfc, hdirs.1]
    rfl
  · rw [hroot]
    exact hdirs.2

/-- Witness for C7: the directories-only build of `fsW`. -/
theorem claim_C7_directories_only_witness :
    ∃ t, Tree.build ⟨false, true, false, false, none⟩ fsW = .ok t ∧
      t.file_count = 0 ∧ allDirsList t.root.children = true := by
  have hb : Tree.build ⟨false, true, false, false, none⟩ fsW =
      .ok ⟨.mk ⟨[], fsW⟩ [.mk ⟨["s"], .dir "s" [.file "b"]⟩ []], 1, 0, false⟩ := by
    simp +decide [Tree.build, generate_tree, generate_children, expand,
      expand_loop, should_include, increment_counts, insort, initCounts,
      strStartsWith, Entry.name, Entry.is_dir, Entry.is_file,
      TreeNode.state, TreeNode.children, TreeNode.lt, TreeNode.len, fsW]
  exact ⟨_, hb, claim_C7_directories_only ⟨false, true, false, false, none⟩ fsW _ rfl hb⟩

/-- C8: a directory whose listing raises `PermissionError` contributes
zero children and zero count increments and the traversal continues
with its siblings; this is the only recovered error: a directory whose
listing raises any other `OSError` makes the build fail, the failure
propagates through every enclosing directory loop, and a failing
`generate_tree` on the root makes the whole build fail. -/
theorem claim_C8_error_policy :
    (∀ (args : Args) (level : Nat) (rel : List String) (n : String)
      (c : Counts),
      generate_tree args level rel (.dirDenied n) c =
        .ok (.mk ⟨rel, .dirDenied n⟩ [], c)) ∧
    (∀ (args : Args) (level : Nat) (rel : List String) (n : String)
      (ts : List TreeNode) (c : Counts),
      generate_children args level (.mk ⟨rel, .dirDenied n⟩ [] :: ts) c =
        match generate_children args level ts c with
        | .error err => .error err
        | .ok (ts2, c2) => .ok (.mk ⟨rel, .dirDenied n⟩ [] :: ts2, c2)) ∧
    (∀ (args : Args) (level : Nat) (rel : List String) (n : String)
      (c : Counts), c.full = false → args.max_depth ≠ some (level : Int) →
      generate_tree args level rel (.dirError n) c = .error .listingError) ∧
    (∀ (args : Args) (level : Nat) (t : TreeNode) (ts : List TreeNode)
      (c : Counts) (err : OsError), t.state.entry.is_dir = true →
      generate_tree args level t.state.rel t.state.entry c = .error err →
      generate_children args level (t :: ts) c = .error err) ∧
    (∀ (args : Args) (e : Entry) (err : OsError),
      generate_tree args 0 [] e initCounts = .error err →
      Tree.build args e = .error err) := by
  refine ⟨?_, ?_, ?_, ?_, ?_⟩
  · intro args level rel n c
    by_cases hg : (c.full || (args.max_depth == some (level : Int))) = true
    · exact generate_tree_of_guard args level rel (.dirDenied n) c hg
    · simp only [Bool.not_eq_true] at hg
      exact generate_tree_of_ok args level rel (.dirDenied n) c [] c [] c hg rfl
        (generate_children_nil args (level + 1) c)
  · intro args level rel n ts c
    have ha : generate_tree args level
        (TreeNode.mk ⟨rel, .dirDenied n⟩ []).state.rel
        (TreeNode.mk ⟨rel, .dirDenied n⟩ []).state.entry c =
        .ok (.mk ⟨rel, .dirDenied n⟩ [], c) := by
      by_cases hg : (c.full || (args.max_depth == some (level : Int))) = true
      · exact generate_tree_of_guard args level rel (.dirDenied n) c hg
      · simp only [Bool.not_eq_true] at hg
        exact generate_tree_of_ok args level rel (.dirDenied n) c [] c [] c hg rfl
          (generate_children_nil args (level + 1) c)
    cases hts : generate_children args level ts c with
    | error err =>
      exact generate_children_cons_dir_children_err args level
        (.mk ⟨rel, .dirDenied n⟩ []) ts c (.mk ⟨rel, .dirDenied n⟩ []) c err rfl ha hts
    | ok p =>
      obtain ⟨ts2, c2⟩ := p
      exact generate_children_cons_dir_ok args level
        (.mk ⟨rel, .dirDenied n⟩ []) ts c (.mk ⟨rel, .dirDenied n⟩ []) c ts2 c2 rfl ha hts
  · intro args level rel n c hf hne
    have hbeq : (args.max_depth == some ((level : Nat) : Int)) = false := by
      cases hx : args.max_depth == some ((level : Nat) : Int) with
      | false => rfl
      | true => exact absurd (eq_of_beq hx) hne
    apply generate_tree_of_expand_err
    · rw [hf, hbeq]
      rfl
    · rfl
  · intro args level t ts c err hd herr
    exact generate_children_cons_dir_err args level t ts c err hd herr
  · intro args e err h
    simp only [Tree.build, h]

/-- Witness for C8 at concrete inputs: a denied directory as the only
entry of a scan yields a childless node and unchanged counters; a
sibling after a denied directory is still processed; an erroring
directory aborts; the error passes through the enclosing loop and the
whole build. -/
theorem claim_C8_error_policy_witness :
    generate_tree argsW 1 ["p"] (.dirDenied "q") ⟨1, 1, false⟩ =
      .ok (.mk ⟨["p"], .dirDenied "q"⟩ [], ⟨1, 1, false⟩) ∧
    generate_children argsW 1 [.mk ⟨["p"], .dirDenied "q"⟩ []] ⟨1, 1, false⟩ =
      .ok ([.mk ⟨["p"], .dirDenied "q"⟩ []], ⟨1, 1, false⟩) ∧
    generate_tree argsW 0 [] (.dirError "q") initCounts =
      .error .listingError ∧
    Tree.build argsW (.dirError "q") = .error .listingError := by
  refine ⟨?_, ?_, ?_, ?_⟩
  · exact claim_C8_error_policy.1 argsW 1 ["p"] "q" ⟨1, 1, false⟩
  · have h := claim_C8_error_policy.2.1 argsW 1 ["p"] "q" [] ⟨1, 1, false⟩
    rw [h]
    rw [generate_children_nil]
  · exact claim_C8_error_policy.2.2.1 argsW 0 [] "q" initCounts rfl (by decide)
  · exact claim_C8_error_policy.2.2.2.2 argsW (.dirError "q") .listingError
      (claim_C8_error_policy.2.2.1 argsW 0 [] "q" initCounts rfl (by decide))

/-- C9: during a build every child is inserted while it and all its
already-inserted siblings still have zero children of their own, so the
count-based sorted insertion is a stable no-op: inserting into a list
of childless nodes appends at the end, and the whole insort-based build
equals the build that plainly appends each included entry. -/
theorem claim_C9_append_equiv :
    (∀ (x : TreeNode) (acc : List TreeNode),
      (∀ y ∈ acc, y.children = []) → insort x acc = acc ++ [x]) ∧
    (∀ (args : Args) (e : Entry), Tree.build args e = Tree.appendBuild args e) := by
  constructor
  · intro x acc h
    exact insort_of_leaves x acc h
  · intro args e
    exact build_eq_appendBuild args e

/-- Witness for C9 at concrete inputs. -/
theorem claim_C9_append_equiv_witness :
    insort (.mk ⟨["b"], .file "b"⟩ []) [.mk ⟨["a"], .file "a"⟩ []] =
      [.mk ⟨["a"], .file "a"⟩ [], .mk ⟨["b"], .file "b"⟩ []] ∧
    Tree.build argsW fsW = Tree.appendBuild argsW fsW := by
  constructor
  · have h := claim_C9_append_equiv.1 (.mk ⟨["b"], .file "b"⟩ [])
      [.mk ⟨["a"], .file "a"⟩ []] (by
        intro y hy
        rcases List.mem_singleton.mp hy with rfl
        rfl)
    rw [h]
    rfl
  · exact claim_C9_append_equiv.2 argsW fsW

/-- C10: the entry that makes the running total reach 200 is counted
but gets no node, so after every build the number of non-root nodes
equals `dir_count + file_count` when not truncated and is one less when
truncated. -/
theorem claim_C10_node_count (args : Args) (e : Entry) (t : Tree)
    (h : Tree.build args e = .ok t) :
    t.dir_count + t.file_count =
      t.root.countNodes + (if t.full = true then 1 else 0) := by
  obtain ⟨root, c2, hgen, hroot, hd, hf, hful⟩ := build_ok_elim args e t h
  have hacc := (generate_tree_counts args 0 [] e initCounts root c2 hgen).1
  have hflip : flipNat initCounts c2 = if c2.full = true then 1 else 0 := by
    cases h2 : c2.full <;> simp [flipNat, initCounts, h2]
  rw [hd, hf, hroot, hful]
  rw [hacc, hflip]
  simp [initCounts]

/-- Witness for C10 at the concrete build of `fsW` (three nodes, not
truncated). -/
theorem claim_C10_node_count_witness :
    treeW.dir_count + treeW.file_count =
      treeW.root.countNodes + (if treeW.full = true then 1 else 0) :=
  claim_C10_node_count argsW fsW treeW build_fsW

end Ind
